import Mathlib

/-!
Shallow embedding of the Sunday Tennis Rotation app's round-generation
engine (the feature-complete variant: pairing mode, skill mode and a
uniqueness-importance dial), together with machine-checked statements
about it.

Modelling conventions:
* JavaScript numbers are modelled as rationals (`ℚ`); the games/sits
  counters and player ids, which the program only ever sets to
  non-negative integers, are modelled as `Nat`.
* `localeCompare`-based string comparison is modelled by the standard
  lexicographic order on `String`.
* The object used as a co-court counter map is modelled as a function
  from normalised id pairs to counts (`counts[key] || 0` becomes plain
  application).
* `Array.prototype.sort` is modelled by a stable insertion sort.
* The random shuffle is passed in as an explicit function parameter.
* Debug/rationale strings, which are display-only, are omitted.
-/

namespace Tennis

/-- A player record, mirroring the persisted player objects. -/
structure Player where
  id : Nat
  name : String
  gender : String
  skill : ℚ
  isPresent : Bool
  happyToSit : Bool
  gamesPlayed : Nat
  sits : Nat
  isArchived : Bool
deriving DecidableEq

/-- A court: its number, the four player ids, and the two chosen pairs. -/
structure Court where
  courtNumber : Nat
  players : List Nat
  pairs : (Nat × Nat) × (Nat × Nat)
deriving DecidableEq

/-- A generated round (the debug rationale field is omitted). -/
structure Round where
  roundNumber : Nat
  courts : List Court
  sitOut : List Nat
deriving DecidableEq

/-- The three user-configurable controls read by the engine. -/
structure Config where
  pairingMode : String
  skillMode : String
  uniquenessImportance : Nat
deriving DecidableEq

/-- The whole persisted application state. -/
structure AppState where
  players : List Player
  rounds : List Round
  nextPlayerId : Nat
  nextRoundNumber : Nat
  pairingMode : String
  skillMode : String
  uniquenessImportance : Nat
deriving DecidableEq

/-- Source `pairKey`: the order-normalised key for an unordered id pair. -/
def pairKey (a b : Nat) : Nat × Nat :=
  if a < b then (a, b) else (b, a)

/-- All position-ordered pairs `(l[i], l[j])` with `i < j`, in the
nested-loop order used throughout the source. -/
def pairsOf : List α → List (α × α)
  | [] => []
  | x :: xs => (xs.map (fun y => (x, y))) ++ pairsOf xs

/-- All ways to choose `k` elements of a list (in list order), paired with
the remaining elements (in list order).  The enumeration order is exactly
the lexicographic order on ascending position tuples used by the source's
nested loops and its recursive `search`. -/
def combosRest : Nat → List α → List (List α × List α)
  | 0, l => [([], l)]
  | _ + 1, [] => []
  | k + 1, x :: xs =>
      ((combosRest k xs).map (fun qr => (x :: qr.1, qr.2))) ++
        ((combosRest (k + 1) xs).map (fun qr => (qr.1, x :: qr.2)))

/-- The source's best-candidate accumulation loop: start from `null`,
replace the current best whenever `better` says the new candidate is
strictly better.  The result is the first enumerated element attaining
the minimum. -/
def pickFirstMin (better : α → α → Bool) (l : List α) : Option α :=
  l.foldl (fun best x =>
    match best with
    | none => some x
    | some b => if better x b then some x else some b) none

/-- Stable insertion of one element into a sorted list. -/
def insertSorted (le : α → α → Bool) (x : α) : List α → List α
  | [] => [x]
  | y :: ys => if le x y then x :: y :: ys else y :: insertSorted le x ys

/-- Stable sort, modelling `Array.prototype.sort` with a total comparator. -/
def sortBy (le : α → α → Bool) (l : List α) : List α :=
  l.foldr (insertSorted le) []

/-- The type of the co-court counter map built by `buildCoCourtCounts`. -/
abbrev CoCourtCounts := Nat × Nat → Nat

/-- The normalised keys of all unordered pairs inside one court. -/
def courtPairKeys (c : Court) : List (Nat × Nat) :=
  (pairsOf c.players).map (fun pr => pairKey pr.1 pr.2)

/-- Source `buildCoCourtCounts`: how many times each unordered pair of
players has shared a court, over the whole round log. -/
def buildCoCourtCounts (rounds : List Round) : CoCourtCounts :=
  fun key => (rounds.flatMap (fun r => r.courts.flatMap courtPairKeys)).count key

/-- Source `getLastSitSet`: the sit-out ids of the most recent round. -/
def getLastSitSet (rounds : List Round) : List Nat :=
  match rounds.getLast? with
  | none => []
  | some r => r.sitOut

/-- The fairness context computed once per sit-out selection. -/
structure SitContext where
  avgSitRate : ℚ
  maxGames : Nat
deriving DecidableEq

/-- Source `scoreSitCandidate` (the returned debug strings are dropped):
the per-player fairness cost; lower means more likely to be chosen to
sit out. -/
def scoreSitCandidate (p : Player) (lastSit : List Nat) (ctx : SitContext) : ℚ :=
  let sits : ℚ := p.sits
  let games : ℚ := p.gamesPlayed
  let ratioPart : ℚ :=
    if ctx.avgSitRate > 0 ∧ games > 0 then
      (sits - games * ctx.avgSitRate) * 20
    else
      sits * 10
  let backToBackPart : ℚ := if p.id ∈ lastSit then 8 else 0
  let happyPart : ℚ := if p.happyToSit then 5 else 0
  let maxGames : ℚ := ctx.maxGames
  let lagPart : ℚ :=
    if 0 < maxGames ∧ 2 ≤ maxGames - games then (maxGames - games) * 3 else 0
  ratioPart + backToBackPart - happyPart + lagPart

/-- Source `computePairingPoolMetric`: pool-level pairing badness of the
set of players who would play (lower is better). -/
def computePairingPoolMetric (players : List Player) (pairingMode : String) : ℚ :=
  if players.length < 4 then 0
  else
    let totalCourts := players.length / 4
    let males := (players.filter (fun p => p.gender = "M")).length
    let females := (players.filter (fun p => p.gender = "F")).length
    if pairingMode = "same-gender" then
      let pureCourts := males / 4 + females / 4
      let badness : ℚ := (totalCourts : ℚ) - (pureCourts : ℚ)
      if badness < 0 then 0 else badness
    else if pairingMode = "mixed" then
      let mixedCourts := min (min (males / 2) (females / 2)) totalCourts
      let badness : ℚ := (totalCourts : ℚ) - (mixedCourts : ℚ)
      if badness < 0 then 0 else badness
    else 0

/-- Source `computeSkillPoolMetric`: skill variance of the play pool,
only meaningful in same-skill mode. -/
def computeSkillPoolMetric (players : List Player) (skillMode : String) : ℚ :=
  if skillMode ≠ "same-skill" then 0
  else if players.length ≤ 1 then 0
  else
    let skills := players.map (fun p => p.skill)
    let n : ℚ := skills.length
    let mean : ℚ := skills.sum / n
    (skills.map (fun s => (s - mean) ^ 2)).sum / n

/-- Source `computeUniquenessPoolMetric`: total historical co-court count
over all unordered pairs in the play pool. -/
def computeUniquenessPoolMetric (players : List Player) (counts : CoCourtCounts) : ℚ :=
  if players.length ≤ 1 then 0
  else ((pairsOf players).map (fun pr => counts (pairKey pr.1.id pr.2.id))).sum

/-- The three metric names whose priority order is configurable. -/
inductive MetricKind
  | pairing
  | skill
  | uniqueness
deriving DecidableEq

/-- Source `getUniquenessPriorityOrder` (with the `|| 2` default folded
in: importance 0 behaves like the medium setting). -/
def getUniquenessPriorityOrder (importance : Nat) :
    MetricKind × MetricKind × MetricKind :=
  if importance = 1 then (.pairing, .skill, .uniqueness)
  else if importance = 3 then (.uniqueness, .pairing, .skill)
  else (.pairing, .uniqueness, .skill)

/-- The tuple the sit-out search minimises lexicographically. -/
structure SitTuple where
  fairness : ℚ
  m1 : ℚ
  m2 : ℚ
  m3 : ℚ
  alphaKey : String
deriving DecidableEq

/-- Source `isBetterTuple`: strict lexicographic comparison over
`(fairness, m1, m2, m3, alphaKey)`. -/
def isBetterTuple (a b : SitTuple) : Bool :=
  if a.fairness ≠ b.fairness then a.fairness < b.fairness
  else if a.m1 ≠ b.m1 then a.m1 < b.m1
  else if a.m2 ≠ b.m2 then a.m2 < b.m2
  else if a.m3 ≠ b.m3 then a.m3 < b.m3
  else a.alphaKey < b.alphaKey

/-- The sit-out candidates' names, sorted and concatenated with a bar
separator, as built for the `alphaKey` tie-break. -/
def alphaKeyOf (names : List String) : String :=
  String.intercalate "|" (sortBy (fun a b => a ≤ b) names)

/-- The three pool metrics of a prospective play pool, by metric kind. -/
def poolMetric (toPlay : List Player) (cfg : Config) (counts : CoCourtCounts) :
    MetricKind → ℚ
  | .pairing => computePairingPoolMetric toPlay cfg.pairingMode
  | .skill => computeSkillPoolMetric toPlay cfg.skillMode
  | .uniqueness => computeUniquenessPoolMetric toPlay counts

/-- Source `buildTuple` inside `pickSitOutPlayers`: the tuple of one
candidate sit-out combination, given as the chosen sitters together with
the complementary play pool. -/
def buildTuple (cfg : Config) (counts : CoCourtCounts) (lastSit : List Nat)
    (ctx : SitContext) (qr : List Player × List Player) : SitTuple :=
  let toSit := qr.1
  let toPlay := qr.2
  let fairness := (toSit.map (fun p => scoreSitCandidate p lastSit ctx)).sum
  let order := getUniquenessPriorityOrder cfg.uniquenessImportance
  { fairness := fairness
    m1 := poolMetric toPlay cfg counts order.1
    m2 := poolMetric toPlay cfg counts order.2.1
    m3 := poolMetric toPlay cfg counts order.2.2
    alphaKey := alphaKeyOf (toSit.map (fun p => p.name)) }

/-- Total games played over a candidate pool. -/
def totalGamesOf (pool : List Player) : Nat :=
  (pool.map (fun p => p.gamesPlayed)).sum

/-- Total sits over a candidate pool. -/
def totalSitsOf (pool : List Player) : Nat :=
  (pool.map (fun p => p.sits)).sum

/-- The pool's average sit rate: total sits over total games, `0` when no
games have been played. -/
def avgSitRateOf (pool : List Player) : ℚ :=
  if 0 < totalGamesOf pool then (totalSitsOf pool : ℚ) / (totalGamesOf pool : ℚ)
  else 0

/-- The maximum games played over a candidate pool. -/
def maxGamesOf (pool : List Player) : Nat :=
  pool.foldl (fun m p => max m p.gamesPlayed) 0

/-- The fairness context of a pool, as computed in `pickSitOutPlayers`. -/
def sitContextOf (pool : List Player) : SitContext :=
  { avgSitRate := avgSitRateOf pool, maxGames := maxGamesOf pool }

/-- The comparator used by the (unreachable) fallback path of
`pickSitOutPlayers`: fairness cost ascending, then name. -/
def fallbackLE (lastSit : List Nat) (ctx : SitContext) (a b : Player) : Bool :=
  if scoreSitCandidate a lastSit ctx ≠ scoreSitCandidate b lastSit ctx then
    scoreSitCandidate a lastSit ctx < scoreSitCandidate b lastSit ctx
  else a.name ≤ b.name

/-- Source `pickSitOutPlayers` (debug output dropped): exhaustively search
all size-`numSit` combinations of the pool and keep the one whose tuple
is lexicographically smallest, first-found winning ties.  The combination
search over chosen index sets is modelled by `combosRest`, which
enumerates (chosen, complement) pairs in the same order as the source's
recursive index search. -/
def pickSitOutPlayers (activePlayers : List Player) (numSit : Nat)
    (cfg : Config) (lastSit : List Nat) (counts : CoCourtCounts) : List Player :=
  if numSit = 0 then []
  else if activePlayers.length ≤ numSit then activePlayers
  else
    let ctx := sitContextOf activePlayers
    let combos := combosRest numSit activePlayers
    let best := pickFirstMin
      (fun a b => isBetterTuple (buildTuple cfg counts lastSit ctx a)
        (buildTuple cfg counts lastSit ctx b)) combos
    match best with
    | some qr => qr.1
    | none => (sortBy (fallbackLE lastSit ctx) activePlayers).take numSit

/-- The per-quartet metric triple (lower is better in each component). -/
structure QuartetMetrics where
  pairingBadness : ℚ
  skillBadness : ℚ
  uniquenessBadness : ℚ
deriving DecidableEq

/-- The spread `max - min` of a non-empty list of skills, written with the
head as the fold seed; quartets are never empty so the `[]` case is out of
the source's domain and is mapped to `0`. -/
def skillSpread : List ℚ → ℚ
  | [] => 0
  | s :: rest => rest.foldl max s - rest.foldl min s

/-- Source `computeQuartetMetrics`: gender-pattern badness against the
pairing mode, skill spread in same-skill mode, and the total co-court
count over the six unordered pairs of the quartet. -/
def computeQuartetMetrics (players4 : List Player) (pairingMode skillMode : String)
    (counts : CoCourtCounts) : QuartetMetrics :=
  let males := (players4.filter (fun p => p.gender = "M")).length
  let females := (players4.filter (fun p => p.gender = "F")).length
  let pairingBadness : ℚ :=
    if pairingMode = "same-gender" then
      if males = 4 ∨ females = 4 then 0 else 1
    else if pairingMode = "mixed" then
      if males = 2 ∧ females = 2 then 0
      else if males = 0 ∨ females = 0 then 2
      else 1
    else 0
  let skillBadness : ℚ :=
    if skillMode = "same-skill" then skillSpread (players4.map (fun p => p.skill))
    else 0
  let uniquenessBadness : ℚ :=
    ((pairsOf players4).map (fun pr => counts (pairKey pr.1.id pr.2.id))).sum
  { pairingBadness := pairingBadness
    skillBadness := skillBadness
    uniquenessBadness := uniquenessBadness }

/-- One candidate quartet in the greedy court search. -/
structure QuartetCand where
  m1 : ℚ
  m2 : ℚ
  m3 : ℚ
  alpha : Nat
deriving DecidableEq

/-- Source `isQuartetBetter`: strict lexicographic comparison over
`(m1, m2, m3, alpha)`. -/
def isQuartetBetter (a b : QuartetCand) : Bool :=
  if a.m1 ≠ b.m1 then a.m1 < b.m1
  else if a.m2 ≠ b.m2 then a.m2 < b.m2
  else if a.m3 ≠ b.m3 then a.m3 < b.m3
  else a.alpha < b.alpha

/-- The candidate record of one quartet: its metrics ordered by the
configured priority, and the deterministic id-sum tie-break. -/
def quartetCand (cfg : Config) (counts : CoCourtCounts) (q : List Player) :
    QuartetCand :=
  let met := computeQuartetMetrics q cfg.pairingMode cfg.skillMode counts
  let m : MetricKind → ℚ := fun k =>
    match k with
    | .pairing => met.pairingBadness
    | .skill => met.skillBadness
    | .uniqueness => met.uniquenessBadness
  let order := getUniquenessPriorityOrder cfg.uniquenessImportance
  { m1 := m order.1
    m2 := m order.2.1
    m3 := m order.2.2
    alpha := (q.map (fun p => p.id)).sum }

/-- The inner exhaustive search of `groupPlayersIntoCourts`: the best
remaining 4-subset, together with the players left after removing it. -/
def bestQuartet (cfg : Config) (counts : CoCourtCounts) (remaining : List Player) :
    Option (List Player × List Player) :=
  pickFirstMin
    (fun a b => isQuartetBetter (quartetCand cfg counts a.1) (quartetCand cfg counts b.1))
    (combosRest 4 remaining)

/-- The per-court greedy loop of `groupPlayersIntoCourts`. -/
def groupLoop (cfg : Config) (counts : CoCourtCounts) :
    Nat → List Player → List (List Player)
  | 0, _ => []
  | c + 1, remaining =>
    if remaining.length < 4 then []
    else
      match bestQuartet cfg counts remaining with
      | none => []
      | some qr => qr.1 :: groupLoop cfg counts c qr.2

/-- The descending-skill comparator used to seed same-skill grouping. -/
def skillDescLE (a b : Player) : Bool :=
  b.skill ≤ a.skill

/-- Source `groupPlayersIntoCourts`: seed an initial ordering (sorted by
skill in same-skill mode, otherwise shuffled via the injected `shuffleFn`)
then greedily pick the best remaining 4-subset for each court. -/
def groupPlayersIntoCourts (playersToPlay : List Player) (cfg : Config)
    (counts : CoCourtCounts) (shuffleFn : List Player → List Player) :
    List (List Player) :=
  let numCourts := playersToPlay.length / 4
  if numCourts = 0 then []
  else
    let remaining :=
      if cfg.skillMode = "same-skill" then sortBy skillDescLE playersToPlay
      else shuffleFn playersToPlay
    groupLoop cfg counts numCourts remaining

/-- Source `getPlayerById`: linear lookup in the roster, `null` on miss. -/
def getPlayerById (players : List Player) (id : Nat) : Option Player :=
  players.find? (fun p => p.id = id)

/-- A 2-2 split of a court into its two pairs of player ids. -/
abbrev PairSplit := (Nat × Nat) × (Nat × Nat)

/-- The three candidate 2-2 splits of the quartet `[a, b, c, d]`, in the
source's fixed enumeration order. -/
def pairOptions (a b c d : Player) : List PairSplit :=
  [((a.id, b.id), (c.id, d.id)),
   ((a.id, c.id), (b.id, d.id)),
   ((a.id, d.id), (b.id, c.id))]

/-- The skill of the roster player with the given id, `0` when absent
(`p?.skill || 0`). -/
def skillOfId (players : List Player) (id : Nat) : ℚ :=
  match getPlayerById players id with
  | some p => p.skill
  | none => 0

/-- Source `skillGapForOption`: absolute difference of the two sides'
skill sums, with skills looked up by id in the roster. -/
def skillGapForOption (players : List Player) (opt : PairSplit) : ℚ :=
  |skillOfId players opt.1.1 + skillOfId players opt.1.2 -
    (skillOfId players opt.2.1 + skillOfId players opt.2.2)|

/-- The flattened id sum of a split, used by the deterministic tie-break. -/
def idSumOfSplit (opt : PairSplit) : Nat :=
  opt.1.1 + opt.1.2 + opt.2.1 + opt.2.2

/-- The scan loop of `choosePairsForGroup`: `bestGap = none` models the
initial `Infinity`, so the first option always becomes the running best. -/
def choosePairsLoop (players : List Player) :
    List PairSplit → PairSplit → Option ℚ → PairSplit
  | [], best, _ => best
  | opt :: rest, best, bestGap =>
    let gap := skillGapForOption players opt
    match bestGap with
    | none => choosePairsLoop players rest opt (some gap)
    | some bg =>
      if gap < bg then choosePairsLoop players rest opt (some gap)
      else if gap = bg then
        if idSumOfSplit opt < idSumOfSplit best then
          choosePairsLoop players rest opt (some bg)
        else choosePairsLoop players rest best (some bg)
      else choosePairsLoop players rest best (some bg)

/-- Source `choosePairsForGroup`: among the three 2-2 splits pick the one
with the smallest skill gap; `none` models the thrown error on a group
whose size is not 4. -/
def choosePairsForGroup (players : List Player) (group : List Player) :
    Option PairSplit :=
  match group with
  | [a, b, c, d] =>
    some (choosePairsLoop players (pairOptions a b c d)
      ((a.id, b.id), (c.id, d.id)) none)
  | _ => none

/-- The present, non-archived players: the candidate pool of a round. -/
def activeOf (s : AppState) : List Player :=
  s.players.filter (fun p => p.isPresent && !p.isArchived)

/-- The number of players who will actually play this round: the largest
multiple of 4 within the pool, capped at 5 courts (20 players). -/
def maxPlayersOf (s : AppState) : Nat :=
  let maxPlayersInRound := (activeOf s).length / 4 * 4
  if maxPlayersInRound > 5 * 4 then 5 * 4 else maxPlayersInRound

/-- The number of players who must sit out this round. -/
def numSitOf (s : AppState) : Nat :=
  (activeOf s).length - maxPlayersOf s

/-- The engine configuration read from state, with the `|| default`
fallbacks of the source (empty string behaving as absent). -/
def cfgOf (s : AppState) : Config :=
  { pairingMode := if s.pairingMode = "" then "random" else s.pairingMode
    skillMode := if s.skillMode = "" then "balanced" else s.skillMode
    uniquenessImportance := s.uniquenessImportance }

/-- The sit-out players chosen for the next round of `s`. -/
def sitOutOf (s : AppState) : List Player :=
  pickSitOutPlayers (activeOf s) (numSitOf s) (cfgOf s)
    (getLastSitSet s.rounds) (buildCoCourtCounts s.rounds)

/-- The play pool: the active players minus the sit-outs, defensively
truncated to the expected size on a length mismatch. -/
def toPlayOf (s : AppState) : List Player :=
  let sitOutIds := (sitOutOf s).map (fun p => p.id)
  let playersToPlay := (activeOf s).filter (fun p => ¬ p.id ∈ sitOutIds)
  if playersToPlay.length ≠ maxPlayersOf s then playersToPlay.take (maxPlayersOf s)
  else playersToPlay

/-- The quartets chosen for the next round of `s`. -/
def plannedGroups (s : AppState) (shuffleFn : List Player → List Player) :
    List (List Player) :=
  groupPlayersIntoCourts (toPlayOf s) (cfgOf s) (buildCoCourtCounts s.rounds) shuffleFn

/-- The court-building loop of `generateNextRound`: skip under-sized
groups without consuming a court number, choose pairs for the rest;
`none` models the exception `choosePairsForGroup` throws on an oversized
group (unreachable through `generateNextRound`). -/
def buildCourts (players : List Player) :
    List (List Player) → Nat → Option (List Court)
  | [], _ => some []
  | g :: gs, n =>
    if g.length < 4 then buildCourts players gs n
    else
      match choosePairsForGroup players g with
      | none => none
      | some pr =>
        (buildCourts players gs (n + 1)).map
          (fun cs => { courtNumber := n, players := g.map (fun p => p.id),
                       pairs := pr } :: cs)

/-- One player's counter update in step 4 of `generateNextRound`. -/
def updateCounters (playingIds sitOutIds : List Nat) (p : Player) : Player :=
  if ¬ p.isPresent then p
  else if p.id ∈ playingIds then { p with gamesPlayed := p.gamesPlayed + 1 }
  else if p.id ∈ sitOutIds then { p with sits := p.sits + 1 }
  else p

/-- Source `generateNextRound`.  The returned pair is the state after the
call together with `some` user-facing message on an abort (the state is
returned unchanged in that case, as the source returns before mutating
anything); `none` marks a successfully committed round. -/
def generateNextRound (s : AppState) (shuffleFn : List Player → List Player) :
    AppState × Option String :=
  if (activeOf s).length < 4 then
    (s, some "Need at least 4 players marked as present to create a round.")
  else if maxPlayersOf s < 4 then
    (s, some "Not enough players for a full court.")
  else
    match buildCourts s.players (plannedGroups s shuffleFn) 1 with
    | none => (s, some "choosePairsForGroup expects 4 players")
    | some courts =>
      if courts.length = 0 then
        (s, some "Could not form any courts. Check players present.")
      else
        let sitOutIds := (sitOutOf s).map (fun p => p.id)
        let playingIds := (toPlayOf s).map (fun p => p.id)
        let players := s.players.map (updateCounters playingIds sitOutIds)
        let newRound : Round :=
          { roundNumber := s.nextRoundNumber, courts := courts, sitOut := sitOutIds }
        ({ s with players := players,
                  rounds := s.rounds ++ [newRound],
                  nextRoundNumber := s.nextRoundNumber + 1 }, none)

/-- The add-player form handler: validates the name and the 1-10 skill
range, then appends a fresh player with zeroed counters. -/
def addPlayer (s : AppState) (name gender : String) (skill : ℚ) : AppState :=
  if name = "" then s
  else if skill < 1 ∨ 10 < skill then s
  else
    { s with
      players := s.players ++
        [{ id := s.nextPlayerId, name := name, gender := gender, skill := skill,
           isPresent := false, happyToSit := false, gamesPlayed := 0, sits := 0,
           isArchived := false }]
      nextPlayerId := s.nextPlayerId + 1 }

/-- The delete button handler: soft-delete by archiving and clearing
presence. -/
def archivePlayer (s : AppState) (id : Nat) : AppState :=
  { s with players := s.players.map (fun p =>
      if p.id = id then { p with isArchived := true, isPresent := false } else p) }

/-- The presence checkbox handler. -/
def setPresent (s : AppState) (id : Nat) (b : Bool) : AppState :=
  { s with players := s.players.map (fun p =>
      if p.id = id then { p with isPresent := b } else p) }

/-- The happy-to-sit checkbox handler. -/
def setHappyToSit (s : AppState) (id : Nat) (b : Bool) : AppState :=
  { s with players := s.players.map (fun p =>
      if p.id = id then { p with happyToSit := b } else p) }

/-- The new-day reset: clear rounds, restart the round counter, zero all
counters and presence, keep the roster and configuration. -/
def clearDay (s : AppState) : AppState :=
  { s with
    rounds := []
    nextRoundNumber := 1
    players := s.players.map (fun p =>
      { p with gamesPlayed := 0, sits := 0, isPresent := false }) }

/-- A player object as found in a parsed stored document: each field is
`none` when it is absent from the JSON or has the wrong type for the
corresponding `typeof` check (for `gender`, which is tested for
falsiness rather than type, the empty string is kept and handled by the
normaliser). -/
structure RawPlayer where
  id : Option ℚ
  name : Option String
  gender : Option String
  skill : Option ℚ
  isPresent : Option Bool
  happyToSit : Option Bool
  gamesPlayed : Option ℚ
  sits : Option ℚ
  isArchived : Option Bool
deriving DecidableEq

/-- A parsed stored document.  `players = none` models a missing or
non-array `players` field; `rounds` is kept only as its length, the one
property `loadState` reads from it. -/
structure RawDoc where
  players : Option (List RawPlayer)
  rounds : Option Nat
  nextPlayerId : Option ℚ
  nextRoundNumber : Option ℚ
  pairingMode : Option String
  skillMode : Option String
  uniquenessImportance : Option ℚ
  debugTooltips : Option Bool
deriving DecidableEq

/-- A player object after `loadState` has backfilled the optional fields
(`id` and `name` are passed through untouched). -/
structure LoadedPlayer where
  id : Option ℚ
  name : Option String
  gender : String
  skill : ℚ
  isPresent : Bool
  happyToSit : Bool
  gamesPlayed : ℚ
  sits : ℚ
  isArchived : Bool
deriving DecidableEq

/-- The state produced by `loadState` (rounds kept as their length). -/
structure LoadedState where
  players : List LoadedPlayer
  roundsLen : Nat
  nextPlayerId : ℚ
  nextRoundNumber : ℚ
  pairingMode : String
  skillMode : String
  uniquenessImportance : ℚ
  debugTooltips : Bool
deriving DecidableEq

/-- Source `defaultState`: the state used when nothing (usable) is stored. -/
def defaultState : LoadedState :=
  { players := []
    roundsLen := 0
    nextPlayerId := 1
    nextRoundNumber := 1
    pairingMode := "random"
    skillMode := "balanced"
    uniquenessImportance := 3
    debugTooltips := true }

/-- The per-player backfill loop of `loadState`. -/
def normalizePlayer (p : RawPlayer) : LoadedPlayer :=
  { id := p.id
    name := p.name
    gender :=
      match p.gender with
      | some g => if g = "" then "O" else g
      | none => "O"
    skill := p.skill.getD 5
    isPresent := p.isPresent.getD false
    happyToSit := p.happyToSit.getD false
    gamesPlayed := p.gamesPlayed.getD 0
    sits := p.sits.getD 0
    isArchived := p.isArchived.getD false }

/-- The pairing-mode migration chain of `loadState`. -/
def normalizePairingMode (m : Option String) : String :=
  let m0 := match m with
    | some v => if v = "" then "random" else v
    | none => "random"
  let m1 := if m0 = "neutral" then "random" else m0
  let m2 := if m1 = "mixed-priority" then "mixed" else m1
  if m2 = "same-gender" ∨ m2 = "mixed" ∨ m2 = "random" then m2 else "random"

/-- The skill-mode migration chain of `loadState`. -/
def normalizeSkillMode (m : Option String) : String :=
  let m0 := match m with
    | some v => if v = "" then "balanced" else v
    | none => "balanced"
  let m1 := if m0 = "clustered" then "same-skill" else m0
  let m2 := if m1 = "random" then "balanced" else m1
  if m2 = "same-skill" ∨ m2 = "balanced" then m2 else "balanced"

/-- Source `loadState`: `none` models a missing document or one on which
`JSON.parse` throws; both give `defaultState`, as does a document whose
`players` field is missing or not an array.  Otherwise every missing or
ill-typed field is backfilled with its documented default. -/
def loadState (doc : Option RawDoc) : LoadedState :=
  match doc with
  | none => defaultState
  | some d =>
    match d.players with
    | none => defaultState
    | some ps =>
      { players := ps.map normalizePlayer
        roundsLen := d.rounds.getD 0
        nextPlayerId :=
          match d.nextPlayerId with
          | some v => v
          | none => (ps.foldl (fun m p => max m (p.id.getD 0)) 0) + 1
        nextRoundNumber :=
          match d.nextRoundNumber with
          | some v => v
          | none => (d.rounds.getD 0 : ℚ) + 1
        pairingMode := normalizePairingMode d.pairingMode
        skillMode := normalizeSkillMode d.skillMode
        uniquenessImportance := d.uniquenessImportance.getD 2
        debugTooltips := d.debugTooltips.getD true }

/-- The accumulator function of `pickFirstMin`. -/
def pickStep (better : α → α → Bool) (best : Option α) (x : α) : Option α :=
  match best with
  | none => some x
  | some b => if better x b then some x else some b

/-- The linear order a `SitTuple` is compared in. -/
def sitKeyOf (t : SitTuple) : Lex (ℚ × Lex (ℚ × Lex (ℚ × Lex (ℚ × String)))) :=
  toLex (t.fairness, toLex (t.m1, toLex (t.m2, toLex (t.m3, t.alphaKey))))

/-- The linear order a `QuartetCand` is compared in. -/
def quartetKeyOf (c : QuartetCand) : Lex (ℚ × Lex (ℚ × Lex (ℚ × Nat))) :=
  toLex (c.m1, toLex (c.m2, toLex (c.m3, c.alpha)))

/-- Shorthand for concrete players in witnesses and counterexamples. -/
def mkPlayer (i : Nat) (nm g : String) (sk : ℚ) (pres happy : Bool)
    (gp st : Nat) (arch : Bool) : Player :=
  { id := i, name := nm, gender := g, skill := sk, isPresent := pres,
    happyToSit := happy, gamesPlayed := gp, sits := st, isArchived := arch }

/-- The fairness cost exactly as claim C3 words it: ratio part when the
player has played at least one game and the pool's average sit rate is
positive, otherwise the raw-sits bootstrap; +8 for a back-to-back sit;
-5 for happy-to-sit; and 3 times the game lag when it is at least 2. -/
def specSitCost (pool : List Player) (lastSit : List Nat) (p : Player) : ℚ :=
  (if 1 ≤ p.gamesPlayed ∧ 0 < avgSitRateOf pool then
    ((p.sits : ℚ) - (p.gamesPlayed : ℚ) * avgSitRateOf pool) * 20
  else (p.sits : ℚ) * 10)
  + (if p.id ∈ lastSit then 8 else 0)
  - (if p.happyToSit then 5 else 0)
  + (if 2 ≤ (maxGamesOf pool : ℤ) - (p.gamesPlayed : ℤ) then
      3 * ((maxGamesOf pool : ℚ) - (p.gamesPlayed : ℚ)) else 0)

/-- A stored player object with every optional field absent. -/
def emptyRawPlayer : RawPlayer :=
  { id := none, name := none, gender := none, skill := none, isPresent := none,
    happyToSit := none, gamesPlayed := none, sits := none, isArchived := none }

/-- A stored document with one bare player and both legacy mode aliases. -/
def legacyRawDoc : RawDoc :=
  { players := some [emptyRawPlayer], rounds := none, nextPlayerId := none,
    nextRoundNumber := none, pairingMode := some "neutral",
    skillMode := some "clustered", uniquenessImportance := none,
    debugTooltips := none }

/-- A roster of only three present players. -/
def threePlayerState : AppState :=
  { players := [mkPlayer 1 "a" "M" 5 true false 0 0 false,
                mkPlayer 2 "b" "F" 5 true false 0 0 false,
                mkPlayer 3 "c" "M" 5 true false 0 0 false],
    rounds := [], nextPlayerId := 4, nextRoundNumber := 1,
    pairingMode := "random", skillMode := "balanced", uniquenessImportance := 2 }

/-- A concrete state with four present players that generates a round. -/
def fourPlayerState : AppState :=
  { players := [mkPlayer 1 "a" "M" 5 true false 0 0 false,
                mkPlayer 2 "b" "F" 6 true false 0 0 false,
                mkPlayer 3 "c" "M" 4 true false 0 0 false,
                mkPlayer 4 "d" "F" 7 true false 0 0 false],
    rounds := [], nextPlayerId := 5, nextRoundNumber := 1,
    pairingMode := "random", skillMode := "balanced", uniquenessImportance := 2 }

/-- No two 4-subsets of the pool that differ as multisets share a metric
tuple: the tie-freeness condition under which the greedy grouping really
is independent of the seed ordering. -/
abbrev keyInjOn (cfg : Config) (counts : CoCourtCounts) (pool : List Player) : Prop :=
  ∀ qr ∈ combosRest 4 pool, ∀ qr' ∈ combosRest 4 pool,
    quartetKeyOf (quartetCand cfg counts (Prod.fst qr)) =
      quartetKeyOf (quartetCand cfg counts (Prod.fst qr')) →
      (Prod.fst qr).Perm (Prod.fst qr')

/-- A generic uniqueness-history player used by the C5 counterexample. -/
def cxPlayer (i : Nat) : Player :=
  mkPlayer i "p" "O" 5 true false 0 0 false

/-- An eight-player pool in id order. -/
def poolOrderA : List Player :=
  [cxPlayer 1, cxPlayer 2, cxPlayer 3, cxPlayer 4,
   cxPlayer 5, cxPlayer 6, cxPlayer 7, cxPlayer 8]

/-- The same eight players, reordered. -/
def poolOrderB : List Player :=
  [cxPlayer 1, cxPlayer 2, cxPlayer 5, cxPlayer 6,
   cxPlayer 3, cxPlayer 4, cxPlayer 7, cxPlayer 8]

/-- A co-court history making three different 4-subsets tie at the
winning tuple. -/
def crossCounts : CoCourtCounts := fun k =>
  if k = (3, 4) ∨ k = (3, 5) ∨ k = (3, 6) ∨ k = (3, 7) ∨
     k = (4, 5) ∨ k = (4, 6) then 1 else 0

/-- The configuration of the C5 counterexample. -/
def mediumRandomCfg : Config :=
  { pairingMode := "random", skillMode := "balanced", uniquenessImportance := 2 }

/-- A four-player pool for the C5 witness (a single 4-subset, so the
tie-freeness hypothesis holds trivially). -/
def witnessPoolA : List Player :=
  [cxPlayer 1, cxPlayer 2, cxPlayer 3, cxPlayer 4]

/-- The same four players reversed. -/
def witnessPoolB : List Player :=
  [cxPlayer 4, cxPlayer 3, cxPlayer 2, cxPlayer 1]

/-!  Generic facts about the helper combinators.  -/

section PickMin

variable {α : Type} {K : Type} [LinearOrder K] {key : α → K} {better : α → α → Bool}

lemma pickFirstMin_eq_foldl (better : α → α → Bool) (l : List α) :
    pickFirstMin better l = l.foldl (pickStep better) none := rfl

lemma pickStep_some (better : α → α → Bool) (b x : α) :
    pickStep better (some b) x = if better x b then some x else some b := rfl

lemma pickStep_foldl_isSome (better : α → α → Bool) :
    ∀ (l : List α) (b : α), ∃ m, l.foldl (pickStep better) (some b) = some m := by
  intro l
  induction l with
  | nil => exact fun b => ⟨b, rfl⟩
  | cons x xs ih =>
    intro b
    rw [List.foldl_cons, pickStep_some]
    by_cases hbx : better x b
    · rw [if_pos hbx]; exact ih x
    · rw [if_neg hbx]; exact ih b

lemma pickStep_foldl_mem (better : α → α → Bool) :
    ∀ (l : List α) (b m : α), l.foldl (pickStep better) (some b) = some m →
      m = b ∨ m ∈ l := by
  intro l
  induction l with
  | nil =>
    intro b m h
    simp only [List.foldl_nil, Option.some.injEq] at h
    exact Or.inl h.symm
  | cons x xs ih =>
    intro b m h
    rw [List.foldl_cons, pickStep_some] at h
    by_cases hbx : better x b
    · rw [if_pos hbx] at h
      rcases ih x m h with h1 | h1
      · exact Or.inr (by simp [h1])
      · exact Or.inr (List.mem_cons_of_mem x h1)
    · rw [if_neg hbx] at h
      rcases ih b m h with h1 | h1
      · exact Or.inl h1
      · exact Or.inr (List.mem_cons_of_mem x h1)

lemma pickStep_foldl_le (hb : ∀ a b, better a b = true ↔ key a < key b) :
    ∀ (l : List α) (b m : α), l.foldl (pickStep better) (some b) = some m →
      key m ≤ key b ∧ ∀ x ∈ l, key m ≤ key x := by
  intro l
  induction l with
  | nil =>
    intro b m h
    simp only [List.foldl_nil, Option.some.injEq] at h
    subst h
    exact ⟨le_refl _, by simp⟩
  | cons x xs ih =>
    intro b m h
    rw [List.foldl_cons, pickStep_some] at h
    by_cases hbx : better x b
    · rw [if_pos hbx] at h
      obtain ⟨h1, h2⟩ := ih x m h
      have hxb : key x < key b := (hb x b).mp hbx
      refine ⟨le_trans h1 (le_of_lt hxb), ?_⟩
      intro y hy
      rcases List.mem_cons.mp hy with rfl | hy
      · exact h1
      · exact h2 y hy
    · rw [if_neg hbx] at h
      obtain ⟨h1, h2⟩ := ih b m h
      have hxb : key b ≤ key x := by
        have hnot : ¬ key x < key b := fun hc => hbx ((hb x b).mpr hc)
        exact le_of_not_lt hnot
      refine ⟨h1, ?_⟩
      intro y hy
      rcases List.mem_cons.mp hy with rfl | hy
      · exact le_trans h1 hxb
      · exact h2 y hy

/-- `pickFirstMin` on a non-empty list returns a member whose key is a
minimum over the list. -/
lemma pickFirstMin_spec (key : α → K) (better : α → α → Bool)
    (hb : ∀ a b, better a b = true ↔ key a < key b)
    {l : List α} (hl : l ≠ []) :
    ∃ m, pickFirstMin better l = some m ∧ m ∈ l ∧ ∀ x ∈ l, key m ≤ key x := by
  cases l with
  | nil => exact absurd rfl hl
  | cons x xs =>
    have hfold : pickFirstMin better (x :: xs) =
        xs.foldl (pickStep better) (some x) := rfl
    obtain ⟨m, hm⟩ := pickStep_foldl_isSome better xs x
    refine ⟨m, by rw [hfold]; exact hm, ?_, ?_⟩
    · rcases pickStep_foldl_mem better xs x m hm with rfl | h
      · exact List.mem_cons_self _ _
      · exact List.mem_cons_of_mem x h
    · obtain ⟨h1, h2⟩ := pickStep_foldl_le hb xs x m hm
      intro y hy
      rcases List.mem_cons.mp hy with rfl | hy
      · exact h1
      · exact h2 y hy

end PickMin

section CombosRest

variable {α : Type}

/-- Membership in `combosRest` gives the expected size, sublist and
partition facts. -/
lemma combosRest_mem_spec :
    ∀ (k : Nat) (l q r : List α), (q, r) ∈ combosRest k l →
      q.length = k ∧ q.Sublist l ∧ r.Sublist l ∧ (q ++ r).Perm l := by
  intro k l
  induction l generalizing k with
  | nil =>
    intro q r h
    cases k with
    | zero =>
      simp only [combosRest, List.mem_singleton, Prod.mk.injEq] at h
      obtain ⟨rfl, rfl⟩ := h
      exact ⟨rfl, List.Sublist.refl _, List.Sublist.refl _, List.Perm.refl _⟩
    | succ k => simp [combosRest] at h
  | cons x xs ih =>
    intro q r h
    cases k with
    | zero =>
      simp only [combosRest, List.mem_singleton, Prod.mk.injEq] at h
      obtain ⟨rfl, rfl⟩ := h
      exact ⟨rfl, List.nil_sublist _, List.Sublist.refl _, List.Perm.refl _⟩
    | succ k =>
      simp only [combosRest, List.mem_append, List.mem_map, Prod.mk.injEq] at h
      rcases h with ⟨⟨q', r'⟩, hmem, hq, hr⟩ | ⟨⟨q', r'⟩, hmem, hq, hr⟩
      · obtain ⟨hlen, hsubq, hsubr, hperm⟩ := ih k q' r' hmem
        subst hq; subst hr
        refine ⟨by simp [hlen], List.Sublist.cons₂ x hsubq,
          List.Sublist.cons x hsubr, ?_⟩
        simpa using hperm.cons x
      · obtain ⟨hlen, hsubq, hsubr, hperm⟩ := ih (k + 1) q' r' hmem
        subst hq; subst hr
        refine ⟨hlen, List.Sublist.cons x hsubq,
          List.Sublist.cons₂ x hsubr, ?_⟩
        exact List.Perm.trans List.perm_middle (hperm.cons x)

/-- `combosRest k` is non-empty whenever `k` elements are available. -/
lemma combosRest_ne_nil :
    ∀ (k : Nat) (l : List α), k ≤ l.length → combosRest k l ≠ [] := by
  intro k l
  induction l generalizing k with
  | nil =>
    intro h
    cases k with
    | zero => simp [combosRest]
    | succ k => simp at h
  | cons x xs ih =>
    intro h
    cases k with
    | zero => simp [combosRest]
    | succ k =>
      have h1 : combosRest k xs ≠ [] := ih k (by simpa using h)
      simp only [combosRest, ne_eq, List.append_eq_nil, List.map_eq_nil_iff,
        not_and]
      intro h2
      exact absurd h2 h1

/-- Every size-`k` sublist occurs as a chosen set in `combosRest k`. -/
lemma combosRest_complete {q l : List α} (h : q.Sublist l) :
    ∃ r, (q, r) ∈ combosRest q.length l := by
  induction h with
  | slnil => exact ⟨[], by simp [combosRest]⟩
  | @cons l₁ l₂ x h ih =>
    obtain ⟨r, hr⟩ := ih
    cases l₁ with
    | nil => exact ⟨x :: l₂, by simp [combosRest]⟩
    | cons a as =>
      refine ⟨x :: r, ?_⟩
      simp only [List.length_cons] at hr ⊢
      simp only [combosRest, List.mem_append, List.mem_map, Prod.mk.injEq]
      exact Or.inr ⟨(a :: as, r), hr, rfl, rfl⟩
  | @cons₂ l₁ l₂ x h ih =>
    obtain ⟨r, hr⟩ := ih
    refine ⟨r, ?_⟩
    simp only [List.length_cons, combosRest, List.mem_append, List.mem_map,
      Prod.mk.injEq]
    exact Or.inl ⟨(l₁, r), hr, rfl, rfl⟩

end CombosRest

section SortPerm

variable {α : Type}

lemma insertSorted_perm (le : α → α → Bool) (x : α) :
    ∀ l : List α, (insertSorted le x l).Perm (x :: l) := by
  intro l
  induction l with
  | nil => exact List.Perm.refl _
  | cons y ys ih =>
    rw [insertSorted]
    by_cases h : le x y
    · rw [if_pos h]
    · rw [if_neg h]
      exact List.Perm.trans (ih.cons y) (List.Perm.swap x y ys)

lemma sortBy_perm (le : α → α → Bool) (l : List α) : (sortBy le l).Perm l := by
  induction l with
  | nil => exact List.Perm.refl _
  | cons x xs ih =>
    have : sortBy le (x :: xs) = insertSorted le x (sortBy le xs) := rfl
    rw [this]
    exact List.Perm.trans (insertSorted_perm le x _) (ih.cons x)

end SortPerm

section PairsPerm

variable {α : Type} {M : Type} [AddCommMonoid M]

lemma pairsOf_cons_sum (w : α → α → M) (x : α) (l : List α) :
    ((pairsOf (x :: l)).map (fun pr => w pr.1 pr.2)).sum =
      (l.map (fun y => w x y)).sum + ((pairsOf l).map (fun pr => w pr.1 pr.2)).sum := by
  simp only [pairsOf, List.map_append, List.sum_append, List.map_map]
  rfl

/-- The sum of a symmetric weight over all position-ordered pairs is
invariant under permutation of the list. -/
lemma pairsOf_sum_perm (w : α → α → M) (hw : ∀ a b, w a b = w b a)
    {l₁ l₂ : List α} (h : l₁.Perm l₂) :
    ((pairsOf l₁).map (fun pr => w pr.1 pr.2)).sum =
      ((pairsOf l₂).map (fun pr => w pr.1 pr.2)).sum := by
  induction h with
  | nil => rfl
  | cons x h ih =>
    rw [pairsOf_cons_sum, pairsOf_cons_sum, ih, (h.map (fun y => w x y)).sum_eq]
  | swap x y l =>
    rw [pairsOf_cons_sum, pairsOf_cons_sum, pairsOf_cons_sum, pairsOf_cons_sum]
    simp only [List.map_cons, List.sum_cons]
    rw [hw y x]
    abel
  | trans h₁ h₂ ih₁ ih₂ => rw [ih₁, ih₂]

end PairsPerm

section FoldMax

variable {β : Type} [LinearOrder β]

lemma foldl_max_mem (x : β) (l : List β) : l.foldl max x ∈ x :: l := by
  induction l generalizing x with
  | nil => simp
  | cons y ys ih =>
    rw [List.foldl_cons]
    rcases List.mem_cons.mp (ih (max x y)) with h | h
    · rcases max_choice x y with h1 | h1 <;> rw [h1] at h ⊢ <;> simp [h]
    · simp [h]

lemma le_foldl_max (x : β) (l : List β) : ∀ y ∈ x :: l, y ≤ l.foldl max x := by
  induction l generalizing x with
  | nil => simp
  | cons z zs ih =>
    intro y hy
    rw [List.foldl_cons]
    rcases List.mem_cons.mp hy with rfl | hy
    · exact le_trans (le_max_left y z) (ih (max y z) _ (List.mem_cons_self _ _))
    · rcases List.mem_cons.mp hy with rfl | hy
      · exact le_trans (le_max_right x y) (ih (max x y) _ (List.mem_cons_self _ _))
      · exact ih (max x z) y (List.mem_cons_of_mem _ hy)

lemma foldl_min_mem (x : β) (l : List β) : l.foldl min x ∈ x :: l := by
  induction l generalizing x with
  | nil => simp
  | cons y ys ih =>
    rw [List.foldl_cons]
    rcases List.mem_cons.mp (ih (min x y)) with h | h
    · rcases min_choice x y with h1 | h1 <;> rw [h1] at h ⊢ <;> simp [h]
    · simp [h]

lemma foldl_min_le (x : β) (l : List β) : ∀ y ∈ x :: l, l.foldl min x ≤ y := by
  induction l generalizing x with
  | nil => simp
  | cons z zs ih =>
    intro y hy
    rw [List.foldl_cons]
    rcases List.mem_cons.mp hy with rfl | hy
    · exact le_trans (ih (min y z) _ (List.mem_cons_self _ _)) (min_le_left y z)
    · rcases List.mem_cons.mp hy with rfl | hy
      · exact le_trans (ih (min x y) _ (List.mem_cons_self _ _)) (min_le_right x y)
      · exact ih (min x z) y (List.mem_cons_of_mem _ hy)

end FoldMax

/-- The head-seeded maximum of a list is determined by its multiset of
elements. -/
lemma headMax_perm {a b : ℚ} {as bs : List ℚ} (h : (a :: as).Perm (b :: bs)) :
    as.foldl max a = bs.foldl max b := by
  have h₁ := foldl_max_mem a as
  have h₂ := foldl_max_mem b bs
  have h₁' : as.foldl max a ∈ b :: bs := h.mem_iff.mp h₁
  have h₂' : bs.foldl max b ∈ a :: as := h.mem_iff.mpr h₂
  exact le_antisymm (le_foldl_max b bs _ h₁') (le_foldl_max a as _ h₂')

/-- The head-seeded minimum of a list is determined by its multiset of
elements. -/
lemma headMin_perm {a b : ℚ} {as bs : List ℚ} (h : (a :: as).Perm (b :: bs)) :
    as.foldl min a = bs.foldl min b := by
  have h₁ := foldl_min_mem a as
  have h₂ := foldl_min_mem b bs
  have h₁' : as.foldl min a ∈ b :: bs := h.mem_iff.mp h₁
  have h₂' : bs.foldl min b ∈ a :: as := h.mem_iff.mpr h₂
  exact le_antisymm (foldl_min_le a as _ h₂') (foldl_min_le b bs _ h₁')

lemma skillSpread_perm {l₁ l₂ : List ℚ} (h : l₁.Perm l₂) :
    skillSpread l₁ = skillSpread l₂ := by
  cases l₁ with
  | nil =>
    have h2 : l₂ = [] := h.symm.eq_nil
    rw [h2]
  | cons a as =>
    cases l₂ with
    | nil =>
      have h2 := h.eq_nil
      simp at h2
    | cons b bs =>
      show as.foldl max a - as.foldl min a = bs.foldl max b - bs.foldl min b
      rw [headMax_perm h, headMin_perm h]

lemma pairKey_comm (a b : Nat) : pairKey a b = pairKey b a := by
  unfold pairKey
  rcases lt_trichotomy a b with h | h | h
  · rw [if_pos h, if_neg (not_lt_of_gt h)]
  · rw [h]
  · rw [if_neg (not_lt_of_gt h), if_pos h]

/-- The quartet metrics depend only on the multiset of the four players. -/
lemma computeQuartetMetrics_perm {q q' : List Player} (h : q.Perm q')
    (pm sm : String) (counts : CoCourtCounts) :
    computeQuartetMetrics q pm sm counts = computeQuartetMetrics q' pm sm counts := by
  unfold computeQuartetMetrics
  have hm : (q.filter (fun p => p.gender = "M")).length =
      (q'.filter (fun p => p.gender = "M")).length :=
    (h.filter _).length_eq
  have hf : (q.filter (fun p => p.gender = "F")).length =
      (q'.filter (fun p => p.gender = "F")).length :=
    (h.filter _).length_eq
  have hs : skillSpread (q.map (fun p => p.skill)) =
      skillSpread (q'.map (fun p => p.skill)) :=
    skillSpread_perm (h.map _)
  have hu : ((pairsOf q).map (fun pr => counts (pairKey pr.1.id pr.2.id))).sum =
      ((pairsOf q').map (fun pr => counts (pairKey pr.1.id pr.2.id))).sum :=
    pairsOf_sum_perm (fun a b => counts (pairKey a.id b.id))
      (fun a b => congrArg counts (pairKey_comm a.id b.id)) h
  rw [hm, hf, hs, hu]

/-- The greedy court search's candidate record depends only on the
multiset of the quartet. -/
lemma quartetCand_perm {q q' : List Player} (h : q.Perm q')
    (cfg : Config) (counts : CoCourtCounts) :
    quartetCand cfg counts q = quartetCand cfg counts q' := by
  unfold quartetCand
  rw [computeQuartetMetrics_perm h cfg.pairingMode cfg.skillMode counts]
  have ha : (q.map (fun p => p.id)).sum = (q'.map (fun p => p.id)).sum :=
    (h.map _).sum_eq
  rw [ha]

/-- The source's `isBetterTuple` is exactly the strict lexicographic
order on `sitKeyOf`. -/
lemma isBetterTuple_iff (a b : SitTuple) :
    isBetterTuple a b = true ↔ sitKeyOf a < sitKeyOf b := by
  unfold isBetterTuple sitKeyOf
  rcases eq_or_ne a.fairness b.fairness with h1 | h1
  · rcases eq_or_ne a.m1 b.m1 with h2 | h2
    · rcases eq_or_ne a.m2 b.m2 with h3 | h3
      · rcases eq_or_ne a.m3 b.m3 with h4 | h4
        · simp [h1, h2, h3, h4, Prod.Lex.lt_iff]
        · simp [h1, h2, h3, h4, Prod.Lex.lt_iff]
      · simp [h1, h2, h3, Prod.Lex.lt_iff]
    · simp [h1, h2, Prod.Lex.lt_iff]
  · simp [h1, Prod.Lex.lt_iff]

/-- The source's `isQuartetBetter` is exactly the strict lexicographic
order on `quartetKeyOf`. -/
lemma isQuartetBetter_iff (a b : QuartetCand) :
    isQuartetBetter a b = true ↔ quartetKeyOf a < quartetKeyOf b := by
  unfold isQuartetBetter quartetKeyOf
  rcases eq_or_ne a.m1 b.m1 with h1 | h1
  · rcases eq_or_ne a.m2 b.m2 with h2 | h2
    · rcases eq_or_ne a.m3 b.m3 with h3 | h3
      · simp [h1, h2, h3, Prod.Lex.lt_iff]
      · simp [h1, h2, h3, Prod.Lex.lt_iff]
    · simp [h1, h2, Prod.Lex.lt_iff]
  · simp [h1, Prod.Lex.lt_iff]

/-!  The pair selector (claims C4 and C10).  -/

/-- All three candidate splits flatten to the same id sum. -/
lemma pairOptions_idSum (a b c d : Player) :
    ∀ o ∈ pairOptions a b c d, idSumOfSplit o = a.id + b.id + c.id + d.id := by
  intro o ho
  simp only [pairOptions, List.mem_cons, List.not_mem_nil, or_false] at ho
  rcases ho with rfl | rfl | rfl <;> simp [idSumOfSplit] <;> omega

lemma choosePairsLoop_spec (players : List Player) :
    ∀ (opts : List PairSplit) (best : PairSplit),
      (choosePairsLoop players opts best
          (some (skillGapForOption players best)) = best ∨
        choosePairsLoop players opts best
          (some (skillGapForOption players best)) ∈ opts) ∧
      skillGapForOption players
          (choosePairsLoop players opts best (some (skillGapForOption players best))) ≤
        skillGapForOption players best ∧
      ∀ o ∈ opts,
        skillGapForOption players
            (choosePairsLoop players opts best (some (skillGapForOption players best))) ≤
          skillGapForOption players o := by
  intro opts
  induction opts with
  | nil => exact fun best => ⟨Or.inl rfl, le_refl _, by simp⟩
  | cons opt rest ih =>
    intro best
    show (choosePairsLoop players (opt :: rest) best _ = best ∨ _) ∧ _
    rw [choosePairsLoop]
    by_cases hlt : skillGapForOption players opt < skillGapForOption players best
    · rw [if_pos hlt]
      obtain ⟨hmem, hle, hall⟩ := ih opt
      refine ⟨?_, le_trans hle (le_of_lt hlt), ?_⟩
      · rcases hmem with h | h
        · exact Or.inr (by simp [h])
        · exact Or.inr (List.mem_cons_of_mem _ h)
      · intro o ho
        rcases List.mem_cons.mp ho with rfl | ho
        · exact hle
        · exact hall o ho
    · rw [if_neg hlt]
      by_cases heq : skillGapForOption players opt = skillGapForOption players best
      · rw [if_pos heq]
        by_cases hsum : idSumOfSplit opt < idSumOfSplit best
        · rw [if_pos hsum]
          rw [show skillGapForOption players best = skillGapForOption players opt
            from heq.symm]
          obtain ⟨hmem, hle, hall⟩ := ih opt
          refine ⟨?_, hle, ?_⟩
          · rcases hmem with h | h
            · exact Or.inr (by simp [h])
            · exact Or.inr (List.mem_cons_of_mem _ h)
          · intro o ho
            rcases List.mem_cons.mp ho with rfl | ho
            · exact hle
            · exact hall o ho
        · rw [if_neg hsum]
          obtain ⟨hmem, hle, hall⟩ := ih best
          refine ⟨?_, hle, ?_⟩
          · rcases hmem with h | h
            · exact Or.inl h
            · exact Or.inr (List.mem_cons_of_mem _ h)
          · intro o ho
            rcases List.mem_cons.mp ho with rfl | ho
            · rw [heq]; exact hle
            · exact hall o ho
      · rw [if_neg heq]
        have hgt : skillGapForOption players best < skillGapForOption players opt :=
          lt_of_le_of_ne (le_of_not_lt hlt) (fun hc => heq hc.symm)
        obtain ⟨hmem, hle, hall⟩ := ih best
        refine ⟨?_, hle, ?_⟩
        · rcases hmem with h | h
          · exact Or.inl h
          · exact Or.inr (List.mem_cons_of_mem _ h)
        · intro o ho
          rcases List.mem_cons.mp ho with rfl | ho
          · exact le_trans hle (le_of_lt hgt)
          · exact hall o ho

lemma choosePairsForGroup_eq_loop (players : List Player) (a b c d : Player) :
    choosePairsForGroup players [a, b, c, d] =
      some (choosePairsLoop players
        [((a.id, c.id), (b.id, d.id)), ((a.id, d.id), (b.id, c.id))]
        ((a.id, b.id), (c.id, d.id))
        (some (skillGapForOption players ((a.id, b.id), (c.id, d.id))))) := rfl

/-- C4: `choosePairsForGroup` returns one of the three 2-2 splits, its
skill gap is minimal among the three, and on an exact gap tie the
returned split's flattened id sum is no larger than the tied split's. -/
theorem choosePairsForGroup_minimal_gap (players : List Player) (a b c d : Player) :
    ∃ best, choosePairsForGroup players [a, b, c, d] = some best ∧
      best ∈ pairOptions a b c d ∧
      (∀ o ∈ pairOptions a b c d,
        skillGapForOption players best ≤ skillGapForOption players o) ∧
      (∀ o ∈ pairOptions a b c d,
        skillGapForOption players o = skillGapForOption players best →
          idSumOfSplit best ≤ idSumOfSplit o) := by
  obtain ⟨hmem, hle, hall⟩ := choosePairsLoop_spec players
    [((a.id, c.id), (b.id, d.id)), ((a.id, d.id), (b.id, c.id))]
    ((a.id, b.id), (c.id, d.id))
  refine ⟨_, choosePairsForGroup_eq_loop players a b c d, ?_, ?_, ?_⟩
  · rcases hmem with h | h
    · rw [h]; simp [pairOptions]
    · simp only [List.mem_cons, List.not_mem_nil, or_false] at h
      rcases h with h | h <;> rw [h] <;> simp [pairOptions]
  · intro o ho
    simp only [pairOptions, List.mem_cons, List.not_mem_nil, or_false] at ho
    rcases ho with rfl | rfl | rfl
    · exact hle
    · exact hall _ (by simp)
    · exact hall _ (by simp)
  · intro o ho _
    have h1 : idSumOfSplit o = a.id + b.id + c.id + d.id := pairOptions_idSum a b c d o ho
    have hbest : ∃ best, choosePairsForGroup players [a, b, c, d] = some best ∧
        best ∈ pairOptions a b c d := by
      refine ⟨_, choosePairsForGroup_eq_loop players a b c d, ?_⟩
      rcases hmem with h | h
      · rw [h]; simp [pairOptions]
      · simp only [List.mem_cons, List.not_mem_nil, or_false] at h
        rcases h with h | h <;> rw [h] <;> simp [pairOptions]
    obtain ⟨best, hb1, hb2⟩ := hbest
    have h2 : idSumOfSplit _ = a.id + b.id + c.id + d.id :=
      pairOptions_idSum a b c d _ hb2
    rw [show choosePairsLoop players
        [((a.id, c.id), (b.id, d.id)), ((a.id, d.id), (b.id, c.id))]
        ((a.id, b.id), (c.id, d.id))
        (some (skillGapForOption players ((a.id, b.id), (c.id, d.id)))) = best from
      Option.some.inj ((choosePairsForGroup_eq_loop players a b c d).symm.trans hb1)]
    rw [h2, h1]

/-- When no option has a strictly smaller id sum than an earlier one, the
three-option scan returns the earliest option attaining the minimal gap. -/
lemma choosePairsLoop_three (players : List Player) (o1 o2 o3 : PairSplit)
    (h21 : ¬ idSumOfSplit o2 < idSumOfSplit o1)
    (h31 : ¬ idSumOfSplit o3 < idSumOfSplit o1)
    (h32 : ¬ idSumOfSplit o3 < idSumOfSplit o2) :
    choosePairsLoop players [o2, o3] o1 (some (skillGapForOption players o1)) =
      (if skillGapForOption players o1 ≤ skillGapForOption players o2 ∧
          skillGapForOption players o1 ≤ skillGapForOption players o3 then o1
       else if skillGapForOption players o2 ≤ skillGapForOption players o3 then o2
       else o3) := by
  rw [choosePairsLoop]
  by_cases hc2 : skillGapForOption players o2 < skillGapForOption players o1
  · rw [if_pos hc2, choosePairsLoop]
    by_cases hc3 : skillGapForOption players o3 < skillGapForOption players o2
    · rw [if_pos hc3, choosePairsLoop]
      have hn1 : ¬ (skillGapForOption players o1 ≤ skillGapForOption players o2 ∧
          skillGapForOption players o1 ≤ skillGapForOption players o3) :=
        fun h => absurd h.1 (not_le_of_lt hc2)
      have hn2 : ¬ skillGapForOption players o2 ≤ skillGapForOption players o3 :=
        not_le_of_lt hc3
      rw [if_neg hn1, if_neg hn2]
    · rw [if_neg hc3]
      have hn1 : ¬ (skillGapForOption players o1 ≤ skillGapForOption players o2 ∧
          skillGapForOption players o1 ≤ skillGapForOption players o3) :=
        fun h => absurd h.1 (not_le_of_lt hc2)
      have hp2 : skillGapForOption players o2 ≤ skillGapForOption players o3 :=
        le_of_not_lt hc3
      by_cases he3 : skillGapForOption players o3 = skillGapForOption players o2
      · rw [if_pos he3, if_neg h32, choosePairsLoop, if_neg hn1, if_pos hp2]
      · rw [if_neg he3, choosePairsLoop, if_neg hn1, if_pos hp2]
  · rw [if_neg hc2]
    have hp2 : skillGapForOption players o1 ≤ skillGapForOption players o2 :=
      le_of_not_lt hc2
    have hstep : (if skillGapForOption players o2 = skillGapForOption players o1 then
        if idSumOfSplit o2 < idSumOfSplit o1 then
          choosePairsLoop players [o3] o2 (some (skillGapForOption players o1))
        else choosePairsLoop players [o3] o1 (some (skillGapForOption players o1))
      else choosePairsLoop players [o3] o1 (some (skillGapForOption players o1))) =
        choosePairsLoop players [o3] o1 (some (skillGapForOption players o1)) := by
      by_cases he2 : skillGapForOption players o2 = skillGapForOption players o1
      · rw [if_pos he2, if_neg h21]
      · rw [if_neg he2]
    rw [hstep, choosePairsLoop]
    by_cases hc3 : skillGapForOption players o3 < skillGapForOption players o1
    · rw [if_pos hc3, choosePairsLoop]
      have hn1 : ¬ (skillGapForOption players o1 ≤ skillGapForOption players o2 ∧
          skillGapForOption players o1 ≤ skillGapForOption players o3) :=
        fun h => absurd h.2 (not_le_of_lt hc3)
      have hn2 : ¬ skillGapForOption players o2 ≤ skillGapForOption players o3 :=
        not_le_of_lt (lt_of_lt_of_le hc3 hp2)
      rw [if_neg hn1, if_neg hn2]
    · rw [if_neg hc3]
      have hp3 : skillGapForOption players o1 ≤ skillGapForOption players o3 :=
        le_of_not_lt hc3
      have hstep2 : (if skillGapForOption players o3 = skillGapForOption players o1 then
          if idSumOfSplit o3 < idSumOfSplit o1 then
            choosePairsLoop players [] o3 (some (skillGapForOption players o1))
          else choosePairsLoop players [] o1 (some (skillGapForOption players o1))
        else choosePairsLoop players [] o1 (some (skillGapForOption players o1))) =
          choosePairsLoop players [] o1 (some (skillGapForOption players o1)) := by
        by_cases he3 : skillGapForOption players o3 = skillGapForOption players o1
        · rw [if_pos he3, if_neg h31]
        · rw [if_neg he3]
      rw [hstep2, choosePairsLoop, if_pos ⟨hp2, hp3⟩]

/-- C10: the three candidate splits all share one flattened id sum, so the
smaller-id-sum tie-break never strictly fires; consequently the function
returns the earliest split (in the fixed enumeration order) attaining the
minimal skill gap. -/
theorem choosePairsForGroup_earliest_min (players : List Player) (a b c d : Player) :
    (∀ o ∈ pairOptions a b c d, idSumOfSplit o = a.id + b.id + c.id + d.id) ∧
    choosePairsForGroup players [a, b, c, d] =
      some (if skillGapForOption players ((a.id, b.id), (c.id, d.id)) ≤
              skillGapForOption players ((a.id, c.id), (b.id, d.id)) ∧
            skillGapForOption players ((a.id, b.id), (c.id, d.id)) ≤
              skillGapForOption players ((a.id, d.id), (b.id, c.id)) then
          ((a.id, b.id), (c.id, d.id))
        else if skillGapForOption players ((a.id, c.id), (b.id, d.id)) ≤
            skillGapForOption players ((a.id, d.id), (b.id, c.id)) then
          ((a.id, c.id), (b.id, d.id))
        else ((a.id, d.id), (b.id, c.id))) := by
  refine ⟨pairOptions_idSum a b c d, ?_⟩
  rw [choosePairsForGroup_eq_loop]
  congr 1
  have e1 : idSumOfSplit ((a.id, b.id), (c.id, d.id)) = a.id + b.id + c.id + d.id := by
    simp [idSumOfSplit]
  have e2 : idSumOfSplit ((a.id, c.id), (b.id, d.id)) = a.id + b.id + c.id + d.id := by
    simp [idSumOfSplit]; omega
  have e3 : idSumOfSplit ((a.id, d.id), (b.id, c.id)) = a.id + b.id + c.id + d.id := by
    simp [idSumOfSplit]; omega
  exact choosePairsLoop_three players _ _ _
    (by rw [e1, e2]; exact lt_irrefl _)
    (by rw [e1, e3]; exact lt_irrefl _)
    (by rw [e2, e3]; exact lt_irrefl _)

/-!  Per-quartet metrics (claim C2).  -/

/-- A sum of four indicator terms equals 4 exactly when all four
conditions hold. -/
lemma iteSum_eq_four (p1 p2 p3 p4 : Prop) [Decidable p1] [Decidable p2]
    [Decidable p3] [Decidable p4] :
    ((if p1 then 1 else 0) + (if p2 then 1 else 0) + (if p3 then 1 else 0) +
        (if p4 then 1 else 0) = 4) ↔ (p1 ∧ p2 ∧ p3 ∧ p4) := by
  split_ifs <;> simp_all

/-- The gender count of an explicit quartet as a sum of indicators. -/
lemma filter_gender_len (g : String) (a b c d : Player) :
    (List.filter (fun p => decide (p.gender = g)) [a, b, c, d]).length =
      (if a.gender = g then 1 else 0) + (if b.gender = g then 1 else 0) +
        (if c.gender = g then 1 else 0) + (if d.gender = g then 1 else 0) := by
  by_cases h1 : a.gender = g <;> by_cases h2 : b.gender = g <;>
    by_cases h3 : c.gender = g <;> by_cases h4 : d.gender = g <;>
    simp [List.filter, h1, h2, h3, h4]

/-- C2 (counterexample): a quartet of four players of gender Other all
share one gender, yet under same-gender mode its pairing badness is 1,
not the 0 the claim predicts. -/
theorem computeQuartetMetrics_all_other_counterexample :
    (∀ p ∈ [mkPlayer 1 "a" "O" 5 true false 0 0 false,
            mkPlayer 2 "b" "O" 5 true false 0 0 false,
            mkPlayer 3 "c" "O" 5 true false 0 0 false,
            mkPlayer 4 "d" "O" 5 true false 0 0 false], p.gender = "O") ∧
    (computeQuartetMetrics
        [mkPlayer 1 "a" "O" 5 true false 0 0 false,
         mkPlayer 2 "b" "O" 5 true false 0 0 false,
         mkPlayer 3 "c" "O" 5 true false 0 0 false,
         mkPlayer 4 "d" "O" 5 true false 0 0 false]
        "same-gender" "balanced" (fun _ => 0)).pairingBadness = 1 :=
  of_decide_eq_true (by with_unfolding_all rfl)

/-- C2 (amended): the per-quartet metrics of `[a, b, c, d]` are exactly:
pairing badness 0 in same-gender mode when all four are male or all four
are female (an all-Other quartet does not qualify), else 1; in mixed mode
0 for exactly 2 males and 2 females, 2 when there are no males or no
females, else 1; 0 in any other mode; skill badness `max - min` of the
four skills in same-skill mode, else 0; uniqueness badness the sum of the
co-court counts of the six unordered pairs. -/
theorem computeQuartetMetrics_spec (a b c d : Player) (pm sm : String)
    (counts : CoCourtCounts) :
    computeQuartetMetrics [a, b, c, d] pm sm counts =
      { pairingBadness :=
          if pm = "same-gender" then
            if (a.gender = "M" ∧ b.gender = "M" ∧ c.gender = "M" ∧ d.gender = "M") ∨
               (a.gender = "F" ∧ b.gender = "F" ∧ c.gender = "F" ∧ d.gender = "F")
            then 0 else 1
          else if pm = "mixed" then
            if ((if a.gender = "M" then 1 else 0) + (if b.gender = "M" then 1 else 0) +
                (if c.gender = "M" then 1 else 0) + (if d.gender = "M" then 1 else 0) = 2) ∧
               ((if a.gender = "F" then 1 else 0) + (if b.gender = "F" then 1 else 0) +
                (if c.gender = "F" then 1 else 0) + (if d.gender = "F" then 1 else 0) = 2)
            then 0
            else if ((if a.gender = "M" then 1 else 0) + (if b.gender = "M" then 1 else 0) +
                (if c.gender = "M" then 1 else 0) + (if d.gender = "M" then 1 else 0) = 0) ∨
               ((if a.gender = "F" then 1 else 0) + (if b.gender = "F" then 1 else 0) +
                (if c.gender = "F" then 1 else 0) + (if d.gender = "F" then 1 else 0) = 0)
            then 2 else 1
          else 0
        skillBadness :=
          if sm = "same-skill" then
            max (max (max a.skill b.skill) c.skill) d.skill -
              min (min (min a.skill b.skill) c.skill) d.skill
          else 0
        uniquenessBadness :=
          ((counts (pairKey a.id b.id) + counts (pairKey a.id c.id) +
            counts (pairKey a.id d.id) + counts (pairKey b.id c.id) +
            counts (pairKey b.id d.id) + counts (pairKey c.id d.id) : ℕ) : ℚ) } := by
  simp only [computeQuartetMetrics, QuartetMetrics.mk.injEq]
  refine ⟨?_, ?_, ?_⟩
  · rw [filter_gender_len "M", filter_gender_len "F"]
    by_cases h1 : pm = "same-gender"
    · rw [if_pos h1, if_pos h1]
      simp only [iteSum_eq_four]
    · rw [if_neg h1, if_neg h1]
  · by_cases h2 : sm = "same-skill"
    · rw [if_pos h2, if_pos h2]
      simp [skillSpread, max_assoc, min_assoc]
    · rw [if_neg h2, if_neg h2]
  · rw [show ((pairsOf [a, b, c, d]).map
        (fun pr => counts (pairKey pr.1.id pr.2.id))).sum =
        (counts (pairKey a.id b.id) + counts (pairKey a.id c.id) +
          counts (pairKey a.id d.id) + counts (pairKey b.id c.id) +
          counts (pairKey b.id d.id) + counts (pairKey c.id d.id)) from by
      simp [pairsOf]; omega]

/-!  The per-player fairness cost (claim C3).  -/

/-- C3: for every player in the pool, `scoreSitCandidate` evaluated in
the pool's fairness context (average sit rate and maximum games), with
the preceding round's sit-out set, computes exactly the claimed formula;
in particular the source's extra `maxGames > 0` guard on the game-lag
term is redundant. -/
theorem scoreSitCandidate_matches_spec (pool : List Player) (rounds : List Round)
    (p : Player) (hp : p ∈ pool) :
    scoreSitCandidate p (getLastSitSet rounds) (sitContextOf pool) =
      specSitCost pool (getLastSitSet rounds) p := by
  clear hp
  have hcast : ((0 : ℚ) < (p.gamesPlayed : ℚ)) ↔ 1 ≤ p.gamesPlayed := by
    rw [Nat.cast_pos]
    omega
  have c1 : (avgSitRateOf pool > 0 ∧ (p.gamesPlayed : ℚ) > 0) ↔
      (1 ≤ p.gamesPlayed ∧ 0 < avgSitRateOf pool) := by
    constructor
    · rintro ⟨h1, h2⟩
      exact ⟨hcast.mp h2, h1⟩
    · rintro ⟨h1, h2⟩
      exact ⟨h2, hcast.mpr h1⟩
  have c2 : ((0 : ℚ) < (maxGamesOf pool : ℚ) ∧
      2 ≤ (maxGamesOf pool : ℚ) - (p.gamesPlayed : ℚ)) ↔
      2 ≤ (maxGamesOf pool : ℤ) - (p.gamesPlayed : ℤ) := by
    constructor
    · rintro ⟨_, h2⟩
      exact_mod_cast h2
    · intro h
      have hM : 0 < maxGamesOf pool := by omega
      refine ⟨by exact_mod_cast hM, by exact_mod_cast h⟩
  show (if avgSitRateOf pool > 0 ∧ ((p.gamesPlayed : ℚ)) > 0 then
      ((p.sits : ℚ) - (p.gamesPlayed : ℚ) * avgSitRateOf pool) * 20
    else (p.sits : ℚ) * 10)
    + (if p.id ∈ getLastSitSet rounds then 8 else 0)
    - (if p.happyToSit then 5 else 0)
    + (if (0 : ℚ) < (maxGamesOf pool : ℚ) ∧
          2 ≤ (maxGamesOf pool : ℚ) - (p.gamesPlayed : ℚ) then
        ((maxGamesOf pool : ℚ) - (p.gamesPlayed : ℚ)) * 3 else 0) =
    specSitCost pool (getLastSitSet rounds) p
  unfold specSitCost
  have e2 : ((maxGamesOf pool : ℚ) - (p.gamesPlayed : ℚ)) * 3 =
      3 * ((maxGamesOf pool : ℚ) - (p.gamesPlayed : ℚ)) := by ring
  rw [if_congr c1 rfl rfl, if_congr c2 e2 rfl]

/-- Witness for C3 at a concrete two-player pool and round history. -/
theorem scoreSitCandidate_matches_spec_witness :
    (mkPlayer 1 "a" "M" 5 true false 2 1 false ∈
      [mkPlayer 1 "a" "M" 5 true false 2 1 false,
       mkPlayer 2 "b" "F" 6 true true 4 0 false]) ∧
    scoreSitCandidate (mkPlayer 1 "a" "M" 5 true false 2 1 false)
        (getLastSitSet [{ roundNumber := 1, courts := [], sitOut := [1] }])
        (sitContextOf [mkPlayer 1 "a" "M" 5 true false 2 1 false,
                       mkPlayer 2 "b" "F" 6 true true 4 0 false]) =
      specSitCost [mkPlayer 1 "a" "M" 5 true false 2 1 false,
                   mkPlayer 2 "b" "F" 6 true true 4 0 false]
        (getLastSitSet [{ roundNumber := 1, courts := [], sitOut := [1] }])
        (mkPlayer 1 "a" "M" 5 true false 2 1 false) :=
  ⟨of_decide_eq_true (by with_unfolding_all rfl),
    scoreSitCandidate_matches_spec _ _ _
      (of_decide_eq_true (by with_unfolding_all rfl))⟩

/-!  The sit-out selector (claim C1).  -/

/-- C1: with `0 < numSit < poolSize`, `pickSitOutPlayers` returns the
chosen half of some enumerated (sitters, players) combination whose
tuple `(fairness, m1, m2, m3, alphaKey)` — fairness the sum of the chosen
sitters' costs, the pool metrics of the complement in the configured
priority order, and the sorted-name tie-break — is lexicographically
least among all size-`numSit` combinations of the pool. -/
theorem pickSitOutPlayers_optimal (activePlayers : List Player) (numSit : Nat)
    (cfg : Config) (lastSit : List Nat) (counts : CoCourtCounts)
    (h1 : 0 < numSit) (h2 : numSit < activePlayers.length) :
    ∃ qr ∈ combosRest numSit activePlayers,
      pickSitOutPlayers activePlayers numSit cfg lastSit counts = qr.1 ∧
      ∀ qr' ∈ combosRest numSit activePlayers,
        sitKeyOf (buildTuple cfg counts lastSit (sitContextOf activePlayers) qr) ≤
          sitKeyOf (buildTuple cfg counts lastSit (sitContextOf activePlayers) qr') := by
  have hne : combosRest numSit activePlayers ≠ [] :=
    combosRest_ne_nil numSit activePlayers (le_of_lt h2)
  obtain ⟨m, hm_eq, hm_mem, hm_min⟩ := pickFirstMin_spec
    (fun qr => sitKeyOf (buildTuple cfg counts lastSit
      (sitContextOf activePlayers) qr))
    (fun a b =>
      isBetterTuple (buildTuple cfg counts lastSit (sitContextOf activePlayers) a)
        (buildTuple cfg counts lastSit (sitContextOf activePlayers) b))
    (fun a b => isBetterTuple_iff _ _) hne
  refine ⟨m, hm_mem, ?_, hm_min⟩
  rw [pickSitOutPlayers, if_neg (Nat.pos_iff_ne_zero.mp h1), if_neg (not_le.mpr h2)]
  show (match pickFirstMin
      (fun a b =>
        isBetterTuple (buildTuple cfg counts lastSit (sitContextOf activePlayers) a)
          (buildTuple cfg counts lastSit (sitContextOf activePlayers) b))
      (combosRest numSit activePlayers) with
    | some qr => qr.1
    | none => List.take numSit
        (sortBy (fallbackLE lastSit (sitContextOf activePlayers)) activePlayers)) = m.1
  rw [hm_eq]

/-- Witness for C1 on a concrete three-player pool with one sitter. -/
theorem pickSitOutPlayers_optimal_witness :
    0 < 1 ∧
    1 < List.length [mkPlayer 1 "a" "M" 5 true false 2 1 false,
                     mkPlayer 2 "b" "F" 6 true true 3 0 false,
                     mkPlayer 3 "c" "O" 4 true false 3 2 false] ∧
    (∃ qr ∈ combosRest 1 [mkPlayer 1 "a" "M" 5 true false 2 1 false,
                          mkPlayer 2 "b" "F" 6 true true 3 0 false,
                          mkPlayer 3 "c" "O" 4 true false 3 2 false],
      pickSitOutPlayers
          [mkPlayer 1 "a" "M" 5 true false 2 1 false,
           mkPlayer 2 "b" "F" 6 true true 3 0 false,
           mkPlayer 3 "c" "O" 4 true false 3 2 false] 1
          { pairingMode := "mixed", skillMode := "same-skill",
            uniquenessImportance := 2 } [3] (fun _ => 0) = qr.1 ∧
      ∀ qr' ∈ combosRest 1 [mkPlayer 1 "a" "M" 5 true false 2 1 false,
                            mkPlayer 2 "b" "F" 6 true true 3 0 false,
                            mkPlayer 3 "c" "O" 4 true false 3 2 false],
        sitKeyOf (buildTuple
            { pairingMode := "mixed", skillMode := "same-skill",
              uniquenessImportance := 2 } (fun _ => 0) [3]
            (sitContextOf [mkPlayer 1 "a" "M" 5 true false 2 1 false,
                           mkPlayer 2 "b" "F" 6 true true 3 0 false,
                           mkPlayer 3 "c" "O" 4 true false 3 2 false]) qr) ≤
          sitKeyOf (buildTuple
            { pairingMode := "mixed", skillMode := "same-skill",
              uniquenessImportance := 2 } (fun _ => 0) [3]
            (sitContextOf [mkPlayer 1 "a" "M" 5 true false 2 1 false,
                           mkPlayer 2 "b" "F" 6 true true 3 0 false,
                           mkPlayer 3 "c" "O" 4 true false 3 2 false]) qr')) :=
  ⟨Nat.one_pos, of_decide_eq_true (by with_unfolding_all rfl),
    pickSitOutPlayers_optimal _ 1 _ [3] _ Nat.one_pos
      (of_decide_eq_true (by with_unfolding_all rfl))⟩

/-!  Loading and normalising stored state (claim C9).  -/

lemma normalizePairingMode_mem (m : Option String) :
    normalizePairingMode m = "same-gender" ∨ normalizePairingMode m = "mixed" ∨
      normalizePairingMode m = "random" := by
  simp only [normalizePairingMode]
  split_ifs with h1 h2 h3 <;> simp_all

lemma normalizeSkillMode_mem (m : Option String) :
    normalizeSkillMode m = "same-skill" ∨ normalizeSkillMode m = "balanced" := by
  simp only [normalizeSkillMode]
  split_ifs with h1 h2 <;> simp_all

/-- C9: `loadState` returns the default state on a missing or unparseable
document (and on a missing or non-array `players` field); otherwise it
backfills every missing or ill-typed player field with its documented
default, normalises the pairing mode into {same-gender, mixed, random}
mapping the legacy aliases, normalises the skill mode into
{same-skill, balanced} mapping the legacy aliases, and defaults the
uniqueness importance to 2. -/
theorem loadState_spec :
    loadState none = defaultState ∧
    (∀ d : RawDoc, d.players = none → loadState (some d) = defaultState) ∧
    (∀ (d : RawDoc) (ps : List RawPlayer), d.players = some ps →
      (∀ (i : Nat) (p : RawPlayer), ps.get? i = some p →
        ∃ lp, (loadState (some d)).players.get? i = some lp ∧
          (p.gamesPlayed = none → lp.gamesPlayed = 0) ∧
          (p.sits = none → lp.sits = 0) ∧
          (p.happyToSit = none → lp.happyToSit = false) ∧
          (p.isPresent = none → lp.isPresent = false) ∧
          (p.skill = none → lp.skill = 5) ∧
          (p.gender = none → lp.gender = "O") ∧
          (p.isArchived = none → lp.isArchived = false)) ∧
      ((loadState (some d)).pairingMode = "same-gender" ∨
        (loadState (some d)).pairingMode = "mixed" ∨
        (loadState (some d)).pairingMode = "random") ∧
      (d.pairingMode = some "neutral" → (loadState (some d)).pairingMode = "random") ∧
      (d.pairingMode = some "mixed-priority" →
        (loadState (some d)).pairingMode = "mixed") ∧
      ((loadState (some d)).skillMode = "same-skill" ∨
        (loadState (some d)).skillMode = "balanced") ∧
      (d.skillMode = some "clustered" → (loadState (some d)).skillMode = "same-skill") ∧
      (d.skillMode = some "random" → (loadState (some d)).skillMode = "balanced") ∧
      (d.uniquenessImportance = none →
        (loadState (some d)).uniquenessImportance = 2)) := by
  refine ⟨rfl, ?_, ?_⟩
  · intro d hd
    simp [loadState, hd]
  · intro d ps hps
    have hplayers : (loadState (some d)).players = ps.map normalizePlayer := by
      simp [loadState, hps]
    have hpm : (loadState (some d)).pairingMode = normalizePairingMode d.pairingMode := by
      simp [loadState, hps]
    have hsm : (loadState (some d)).skillMode = normalizeSkillMode d.skillMode := by
      simp [loadState, hps]
    have hui : (loadState (some d)).uniquenessImportance =
        d.uniquenessImportance.getD 2 := by
      simp [loadState, hps]
    refine ⟨?_, ?_, ?_, ?_, ?_, ?_, ?_, ?_⟩
    · intro i p hip
      refine ⟨normalizePlayer p, ?_, ?_, ?_, ?_, ?_, ?_, ?_, ?_⟩
      · rw [hplayers, List.get?_map, hip]
        rfl
      · intro h; simp [normalizePlayer, h]
      · intro h; simp [normalizePlayer, h]
      · intro h; simp [normalizePlayer, h]
      · intro h; simp [normalizePlayer, h]
      · intro h; simp [normalizePlayer, h]
      · intro h; simp [normalizePlayer, h]
      · intro h; simp [normalizePlayer, h]
    · rw [hpm]; exact normalizePairingMode_mem d.pairingMode
    · intro h; rw [hpm, h]
      exact of_decide_eq_true (by with_unfolding_all rfl)
    · intro h; rw [hpm, h]
      exact of_decide_eq_true (by with_unfolding_all rfl)
    · rw [hsm]; exact normalizeSkillMode_mem d.skillMode
    · intro h; rw [hsm, h]
      exact of_decide_eq_true (by with_unfolding_all rfl)
    · intro h; rw [hsm, h]
      exact of_decide_eq_true (by with_unfolding_all rfl)
    · intro h; rw [hui, h]; rfl

/-- Witness for C9: the default on a missing document, and the backfills
on a one-player document with every optional field absent and both legacy
mode aliases present. -/
theorem loadState_spec_witness :
    loadState none = defaultState ∧
    (∃ lp, (loadState (some legacyRawDoc)).players.get? 0 = some lp ∧
      lp.gamesPlayed = 0 ∧ lp.sits = 0 ∧ lp.happyToSit = false ∧
      lp.isPresent = false ∧ lp.skill = 5 ∧ lp.gender = "O" ∧
      lp.isArchived = false) ∧
    (loadState (some legacyRawDoc)).pairingMode = "random" ∧
    (loadState (some legacyRawDoc)).skillMode = "same-skill" ∧
    (loadState (some legacyRawDoc)).uniquenessImportance = 2 := by
  refine ⟨loadState_spec.1, ?_, ?_, ?_, ?_⟩
  · obtain ⟨lp, hlp, h1, h2, h3, h4, h5, h6, h7⟩ :=
      (loadState_spec.2.2 legacyRawDoc [emptyRawPlayer] rfl).1 0 emptyRawPlayer rfl
    exact ⟨lp, hlp, h1 rfl, h2 rfl, h3 rfl, h4 rfl, h5 rfl, h6 rfl, h7 rfl⟩
  · exact (loadState_spec.2.2 legacyRawDoc [emptyRawPlayer] rfl).2.2.1 rfl
  · exact (loadState_spec.2.2 legacyRawDoc [emptyRawPlayer] rfl).2.2.2.2.2.1 rfl
  · exact (loadState_spec.2.2 legacyRawDoc [emptyRawPlayer] rfl).2.2.2.2.2.2.2 rfl

/-!  Round generation aborts (claim C8).  -/

/-- C8: with fewer than 4 present non-archived players, or when court
grouping yields zero courts, `generateNextRound` aborts with a
user-facing message and returns the state unchanged: no counters are
touched, no round is appended, and the round-number counter is not
advanced. -/
theorem generateNextRound_abort (s : AppState) (f : List Player → List Player)
    (h : (activeOf s).length < 4 ∨ plannedGroups s f = []) :
    ∃ msg, generateNextRound s f = (s, some msg) := by
  rw [generateNextRound]
  by_cases h1 : (activeOf s).length < 4
  · rw [if_pos h1]
    exact ⟨_, rfl⟩
  · rw [if_neg h1]
    by_cases h2 : maxPlayersOf s < 4
    · rw [if_pos h2]
      exact ⟨_, rfl⟩
    · rw [if_neg h2]
      rcases h with h | h
      · exact absurd h h1
      · rw [h]
        exact ⟨_, rfl⟩

/-- Witness for C8 on a three-player roster. -/
theorem generateNextRound_abort_witness :
    ((activeOf threePlayerState).length < 4 ∨ plannedGroups threePlayerState id = []) ∧
    ∃ msg, generateNextRound threePlayerState id = (threePlayerState, some msg) :=
  ⟨Or.inl (of_decide_eq_true (by with_unfolding_all rfl)),
    generateNextRound_abort threePlayerState id
      (Or.inl (of_decide_eq_true (by with_unfolding_all rfl)))⟩

/-!  Plumbing for the round-generation invariants (claims C6 and C7).  -/

lemma activeOf_sublist (s : AppState) : (activeOf s).Sublist s.players :=
  List.filter_sublist s.players

lemma activeOf_ids_nodup (s : AppState)
    (hids : (s.players.map (fun p => p.id)).Nodup) :
    ((activeOf s).map (fun p => p.id)).Nodup :=
  ((activeOf_sublist s).map _).nodup hids

lemma maxPlayersOf_le (s : AppState) : maxPlayersOf s ≤ (activeOf s).length := by
  unfold maxPlayersOf
  by_cases h : (activeOf s).length / 4 * 4 > 5 * 4
  · rw [if_pos h]
    omega
  · rw [if_neg h]
    exact Nat.div_mul_le_self _ 4

lemma maxPlayersOf_mul_div (s : AppState) :
    4 * (maxPlayersOf s / 4) = maxPlayersOf s := by
  unfold maxPlayersOf
  by_cases h : (activeOf s).length / 4 * 4 > 5 * 4
  · rw [if_pos h]
  · rw [if_neg h]
    rw [Nat.mul_div_cancel _ (by omega)]
    ring

/-- Filtering out the chosen elements of a combination leaves exactly the
complement, provided ids are unique. -/
lemma combosRest_filter_ids :
    ∀ (k : Nat) (l q r : List Player), (q, r) ∈ combosRest k l →
      ((l.map (fun p => p.id)).Nodup) →
      l.filter (fun p => ¬ p.id ∈ q.map (fun p => p.id)) = r := by
  intro k l
  induction l generalizing k with
  | nil =>
    intro q r h _
    cases k with
    | zero =>
      simp only [combosRest, List.mem_singleton, Prod.mk.injEq] at h
      obtain ⟨rfl, rfl⟩ := h
      rfl
    | succ k => simp [combosRest] at h
  | cons x xs ih =>
    intro q r h hnd
    have hx : ¬ x.id ∈ xs.map (fun p => p.id) := by
      simp only [List.map_cons, List.nodup_cons] at hnd
      exact hnd.1
    have hnd' : (xs.map (fun p => p.id)).Nodup := by
      simp only [List.map_cons, List.nodup_cons] at hnd
      exact hnd.2
    cases k with
    | zero =>
      simp only [combosRest, List.mem_singleton, Prod.mk.injEq] at h
      obtain ⟨rfl, rfl⟩ := h
      simp
    | succ k =>
      simp only [combosRest, List.mem_append, List.mem_map, Prod.mk.injEq] at h
      rcases h with ⟨⟨q', r'⟩, hmem, hq, hr⟩ | ⟨⟨q', r'⟩, hmem, hq, hr⟩
      · subst hq; subst hr
        rw [List.filter_cons_of_neg (by simp)]
        have hcong : xs.filter (fun p => ¬ p.id ∈ (x :: q').map (fun p => p.id)) =
            xs.filter (fun p => ¬ p.id ∈ q'.map (fun p => p.id)) := by
          apply List.filter_congr
          intro p hp
          have hpx : p.id ≠ x.id := by
            intro hc
            exact hx (hc ▸ List.mem_map_of_mem (fun p => p.id) hp)
          simp [hpx]
        rw [hcong]
        exact ih k q' r' hmem hnd'
      · subst hq; subst hr
        have hqsub : q'.Sublist xs := (combosRest_mem_spec (k + 1) xs q' r' hmem).2.1
        have hxq : ¬ x.id ∈ q'.map (fun p => p.id) := by
          intro hc
          exact hx ((hqsub.map (fun p => p.id)).subset hc)
        rw [List.filter_cons_of_pos (by simpa using hxq)]
        rw [ih (k + 1) q' r' hmem hnd']

lemma length_eq_four {l : List Player} (h : l.length = 4) :
    ∃ a b c d, l = [a, b, c, d] := by
  match l, h with
  | [a, b, c, d], _ => exact ⟨a, b, c, d, rfl⟩

lemma flatten_map_ids (gs : List (List Player)) :
    (gs.map (fun g => g.map (fun p => p.id))).flatten =
      gs.flatten.map (fun p => p.id) := by
  induction gs with
  | nil => rfl
  | cons g gs ih =>
    rw [List.map_cons, List.flatten_cons, List.flatten_cons, List.map_append, ih]

lemma sublist_flatten_of_mem {g : List Player} {gs : List (List Player)}
    (h : g ∈ gs) : g.Sublist gs.flatten := by
  induction gs with
  | nil => simp at h
  | cons g0 gs ih =>
    rcases List.mem_cons.mp h with rfl | h
    · simp only [List.flatten_cons]
      exact (List.sublist_append_left g gs.flatten)
    · simp only [List.flatten_cons]
      exact (ih h).trans (List.sublist_append_right g0 gs.flatten)

lemma pickSitOutPlayers_zero (active : List Player) (cfg : Config)
    (lastSit : List Nat) (counts : CoCourtCounts) :
    pickSitOutPlayers active 0 cfg lastSit counts = [] := by
  rw [pickSitOutPlayers, if_pos rfl]

/-- The chosen sit-outs and the computed play pool partition the active
pool, and the play pool has exactly the expected size (the defensive
truncation is never taken). -/
lemma sitOut_toPlay_spec (s : AppState)
    (hids : ((activeOf s).map (fun p => p.id)).Nodup)
    (h4 : 4 ≤ maxPlayersOf s) :
    ((sitOutOf s) ++ (toPlayOf s)).Perm (activeOf s) ∧
      (toPlayOf s).length = maxPlayersOf s := by
  have hle := maxPlayersOf_le s
  by_cases h0 : numSitOf s = 0
  · have hsit : sitOutOf s = [] := by
      rw [sitOutOf, h0, pickSitOutPlayers_zero]
    have hlen : (activeOf s).length = maxPlayersOf s := by
      unfold numSitOf at h0
      omega
    have htp : toPlayOf s = activeOf s := by
      simp only [toPlayOf, hsit]
      rw [List.filter_eq_self.mpr (by intro a _; simp)]
      rw [if_neg (by rw [hlen]; simp)]
    rw [hsit, htp, List.nil_append]
    exact ⟨List.Perm.refl _, hlen.symm ▸ rfl⟩
  · have h1 : 0 < numSitOf s := Nat.pos_of_ne_zero h0
    have h2 : numSitOf s < (activeOf s).length := by
      unfold numSitOf at *
      omega
    obtain ⟨qr, hmem, heq, _⟩ := pickSitOutPlayers_optimal (activeOf s) (numSitOf s)
      (cfgOf s) (getLastSitSet s.rounds) (buildCoCourtCounts s.rounds) h1 h2
    obtain ⟨hlen1, _, _, hperm⟩ := combosRest_mem_spec _ _ _ _
      (show (qr.1, qr.2) ∈ combosRest (numSitOf s) (activeOf s) from by
        rw [Prod.mk.eta]; exact hmem)
    have hsit : sitOutOf s = qr.1 := heq
    have hlen2 : qr.2.length = maxPlayersOf s := by
      have hl := hperm.length_eq
      rw [List.length_append] at hl
      unfold numSitOf at *
      omega
    have hfilter : (activeOf s).filter
        (fun p => ¬ p.id ∈ (sitOutOf s).map (fun p => p.id)) = qr.2 := by
      rw [hsit]
      exact combosRest_filter_ids _ _ _ _
        (by rw [Prod.mk.eta]; exact hmem) hids
    have htp : toPlayOf s = qr.2 := by
      simp only [toPlayOf]
      rw [hfilter, if_neg (by rw [hlen2]; simp)]
    rw [hsit, htp]
    exact ⟨hperm, hlen2 ▸ rfl⟩

/-- The greedy loop consumes its input exactly when the length is the
full multiple of four, producing quartets of four. -/
lemma groupLoop_cover (cfg : Config) (counts : CoCourtCounts) :
    ∀ (c : Nat) (remaining : List Player), remaining.length = 4 * c →
      ((groupLoop cfg counts c remaining).flatten).Perm remaining ∧
      ∀ g ∈ groupLoop cfg counts c remaining, g.length = 4 := by
  intro c
  induction c with
  | zero =>
    intro remaining h
    have hnil : remaining = [] := List.eq_nil_of_length_eq_zero (by omega)
    subst hnil
    exact ⟨List.Perm.refl _, by simp [groupLoop]⟩
  | succ c ih =>
    intro remaining h
    have h4 : ¬ remaining.length < 4 := by omega
    have hne : combosRest 4 remaining ≠ [] :=
      combosRest_ne_nil 4 remaining (by omega)
    obtain ⟨m, hm_eq, hm_mem, _⟩ := pickFirstMin_spec
      (fun qr => quartetKeyOf (quartetCand cfg counts qr.1))
      (fun a b =>
        isQuartetBetter (quartetCand cfg counts a.1) (quartetCand cfg counts b.1))
      (fun a b => isQuartetBetter_iff _ _) hne
    have hbq : bestQuartet cfg counts remaining = some m := hm_eq
    obtain ⟨hlen, _, _, hperm⟩ := combosRest_mem_spec 4 remaining m.1 m.2
      (by rw [Prod.mk.eta]; exact hm_mem)
    have hrest : m.2.length = 4 * c := by
      have hl := hperm.length_eq
      rw [List.length_append] at hl
      omega
    obtain ⟨ihp, ihl⟩ := ih m.2 hrest
    have hgl : groupLoop cfg counts (c + 1) remaining =
        m.1 :: groupLoop cfg counts c m.2 := by
      rw [groupLoop, if_neg h4, hbq]
    rw [hgl]
    constructor
    · rw [List.flatten_cons]
      exact List.Perm.trans (ihp.append_left m.1) hperm
    · intro g hg
      rcases List.mem_cons.mp hg with rfl | hg
      · exact hlen
      · exact ihl g hg

/-- The planned quartets cover the play pool exactly. -/
lemma plannedGroups_cover (s : AppState) (f : List Player → List Player)
    (hf : ∀ l : List Player, (f l).Perm l)
    (htp : (toPlayOf s).length = maxPlayersOf s)
    (h4 : 4 ≤ maxPlayersOf s) :
    ((plannedGroups s f).flatten).Perm (toPlayOf s) ∧
      ∀ g ∈ plannedGroups s f, g.length = 4 := by
  have hnc : (toPlayOf s).length / 4 ≠ 0 := by
    rw [htp]
    intro hc
    have := maxPlayersOf_mul_div s
    omega
  have hrem : ∀ remaining : List Player, remaining.Perm (toPlayOf s) →
      remaining.length = 4 * ((toPlayOf s).length / 4) := by
    intro remaining hp
    rw [hp.length_eq, htp]
    have hmd := maxPlayersOf_mul_div s
    omega
  unfold plannedGroups groupPlayersIntoCourts
  rw [if_neg hnc]
  by_cases hmode : (cfgOf s).skillMode = "same-skill"
  · rw [if_pos hmode]
    have hp : (sortBy skillDescLE (toPlayOf s)).Perm (toPlayOf s) := sortBy_perm _ _
    obtain ⟨h1, h2⟩ := groupLoop_cover (cfgOf s) (buildCoCourtCounts s.rounds)
      ((toPlayOf s).length / 4) _ (hrem _ hp)
    exact ⟨h1.trans hp, h2⟩
  · rw [if_neg hmode]
    have hp : (f (toPlayOf s)).Perm (toPlayOf s) := hf _
    obtain ⟨h1, h2⟩ := groupLoop_cover (cfgOf s) (buildCoCourtCounts s.rounds)
      ((toPlayOf s).length / 4) _ (hrem _ hp)
    exact ⟨h1.trans hp, h2⟩

/-- Building courts from length-4 groups always succeeds, numbers courts
consecutively and copies each group's ids and chosen pairs. -/
lemma buildCourts_spec (players : List Player) :
    ∀ (gs : List (List Player)) (n : Nat), (∀ g ∈ gs, g.length = 4) →
      ∃ cs, buildCourts players gs n = some cs ∧
        cs.map (fun c => c.players) = gs.map (fun g => g.map (fun p => p.id)) ∧
        ∀ c0 ∈ cs, ∃ g ∈ gs, c0.players = g.map (fun p => p.id) ∧
          choosePairsForGroup players g = some c0.pairs := by
  intro gs
  induction gs with
  | nil => exact fun n _ => ⟨[], rfl, rfl, by simp⟩
  | cons g gs ih =>
    intro n hlen
    have hg4 : g.length = 4 := hlen g (List.mem_cons_self _ _)
    obtain ⟨a, b, c, d, rfl⟩ := length_eq_four hg4
    obtain ⟨best, hbest, hbmem, _, _⟩ := choosePairsForGroup_minimal_gap players a b c d
    obtain ⟨cs, hcs, hmap, hcourts⟩ := ih (n + 1)
      (fun g hg => hlen g (List.mem_cons_of_mem _ hg))
    refine ⟨{ courtNumber := n, players := [a, b, c, d].map (fun p => p.id),
              pairs := best } :: cs, ?_, ?_, ?_⟩
    · rw [buildCourts, if_neg (by simp), hbest, hcs]
      rfl
    · simp only [List.map_cons, hmap]
    · intro c0 hc0
      rcases List.mem_cons.mp hc0 with rfl | hc0
      · exact ⟨[a, b, c, d], List.mem_cons_self _ _, rfl, by rw [hbest]⟩
      · obtain ⟨g, hg, hp1, hp2⟩ := hcourts c0 hc0
        exact ⟨g, List.mem_cons_of_mem _ hg, hp1, hp2⟩

/-- Shape of a successful `generateNextRound` call. -/
lemma generateNextRound_success (s : AppState) (f : List Player → List Player)
    {s' : AppState} (hgen : generateNextRound s f = (s', none)) :
    ¬ (activeOf s).length < 4 ∧ ¬ maxPlayersOf s < 4 ∧
    ∃ courts, buildCourts s.players (plannedGroups s f) 1 = some courts ∧
      courts.length ≠ 0 ∧
      s' = { s with
             players := s.players.map (updateCounters
               ((toPlayOf s).map (fun p => p.id)) ((sitOutOf s).map (fun p => p.id))),
             rounds := s.rounds ++
               [{ roundNumber := s.nextRoundNumber, courts := courts,
                  sitOut := (sitOutOf s).map (fun p => p.id) }],
             nextRoundNumber := s.nextRoundNumber + 1 } := by
  rw [generateNextRound] at hgen
  by_cases h1 : (activeOf s).length < 4
  · rw [if_pos h1] at hgen
    exact absurd (congrArg Prod.snd hgen) (by simp)
  rw [if_neg h1] at hgen
  by_cases h2 : maxPlayersOf s < 4
  · rw [if_pos h2] at hgen
    exact absurd (congrArg Prod.snd hgen) (by simp)
  rw [if_neg h2] at hgen
  cases hbc : buildCourts s.players (plannedGroups s f) 1 with
  | none =>
    simp only [hbc] at hgen
    exact absurd (congrArg Prod.snd hgen) (by simp)
  | some courts =>
    simp only [hbc] at hgen
    by_cases h3 : courts.length = 0
    · rw [if_pos h3] at hgen
      exact absurd (congrArg Prod.snd hgen) (by simp)
    · rw [if_neg h3] at hgen
      exact ⟨h1, h2, courts, rfl, h3, (congrArg Prod.fst hgen).symm⟩

/-- A split drawn from the three options covers exactly the quartet. -/
lemma pairOptions_perm (a b c d : Player) {pr : PairSplit}
    (h : pr ∈ pairOptions a b c d) :
    [pr.1.1, pr.1.2, pr.2.1, pr.2.2].Perm ([a, b, c, d].map (fun p => p.id)) := by
  simp only [pairOptions, List.mem_cons, List.not_mem_nil, or_false] at h
  rcases h with rfl | rfl | rfl
  · exact List.Perm.refl _
  · exact (List.Perm.swap b.id c.id [d.id]).cons a.id
  · exact ((@List.perm_middle Nat d.id [b.id, c.id] []).symm).cons a.id

/-- C6: after a successful round generation, the new round's sit-out ids
together with the ids on all courts are a permutation of (hence partition)
the candidate pool's ids, with no duplicates anywhere; and each court's
two pairs are disjoint and exactly cover its four players. -/
theorem generateNextRound_partition (s : AppState) (f : List Player → List Player)
    (hids : (s.players.map (fun p => p.id)).Nodup)
    (hf : ∀ l : List Player, (f l).Perm l)
    (s' : AppState) (hgen : generateNextRound s f = (s', none)) :
    ∃ r : Round, s'.rounds = s.rounds ++ [r] ∧
      (r.sitOut ++ (r.courts.map (fun c => c.players)).flatten).Perm
        ((activeOf s).map (fun p => p.id)) ∧
      (r.sitOut ++ (r.courts.map (fun c => c.players)).flatten).Nodup ∧
      ∀ c0 ∈ r.courts,
        [c0.pairs.1.1, c0.pairs.1.2, c0.pairs.2.1, c0.pairs.2.2].Perm c0.players ∧
        c0.players.Nodup := by
  obtain ⟨h1, h2, courts, hbc, _, hs'⟩ := generateNextRound_success s f hgen
  have hactive_nodup := activeOf_ids_nodup s hids
  have h4 : 4 ≤ maxPlayersOf s := by omega
  obtain ⟨hpart, htp_len⟩ := sitOut_toPlay_spec s hactive_nodup h4
  obtain ⟨hgcover, hg4⟩ := plannedGroups_cover s f hf htp_len h4
  obtain ⟨cs, hcs, hmap, hcourts⟩ := buildCourts_spec s.players (plannedGroups s f) 1 hg4
  have hceq : courts = cs := Option.some.inj (hbc.symm.trans hcs)
  subst hceq
  have hflat : (courts.map (fun c => c.players)).flatten.Perm
      ((toPlayOf s).map (fun p => p.id)) := by
    rw [hmap, flatten_map_ids]
    exact hgcover.map _
  have hmain : ((sitOutOf s).map (fun p => p.id) ++
      (courts.map (fun c => c.players)).flatten).Perm
      ((activeOf s).map (fun p => p.id)) := by
    have hstep : ((sitOutOf s).map (fun p => p.id) ++
        (courts.map (fun c => c.players)).flatten).Perm
        ((sitOutOf s).map (fun p => p.id) ++ (toPlayOf s).map (fun p => p.id)) :=
      hflat.append_left _
    have hstep2 : ((sitOutOf s).map (fun p => p.id) ++
        (toPlayOf s).map (fun p => p.id)).Perm
        ((activeOf s).map (fun p => p.id)) := by
      rw [← List.map_append]
      exact hpart.map _
    exact hstep.trans hstep2
  have htoPlay_nodup : ((toPlayOf s).map (fun p => p.id)).Nodup := by
    have hall : (((sitOutOf s) ++ (toPlayOf s)).map (fun p => p.id)).Nodup :=
      ((hpart.map (fun p => p.id)).nodup_iff).mpr hactive_nodup
    rw [List.map_append] at hall
    exact hall.of_append_right
  refine ⟨_, by rw [hs'], hmain, ((hmain.nodup_iff).mpr hactive_nodup), ?_⟩
  intro c0 hc0
  obtain ⟨g, hg, hpl, hpr⟩ := hcourts c0 hc0
  obtain ⟨a, b, c, d, rfl⟩ := length_eq_four (hg4 g hg)
  obtain ⟨best, hbest, hbmem, _, _⟩ := choosePairsForGroup_minimal_gap s.players a b c d
  have hpair_eq : c0.pairs = best := Option.some.inj (hpr.symm.trans hbest)
  constructor
  · rw [hpair_eq, hpl]
    exact pairOptions_perm a b c d hbmem
  · rw [hpl]
    have hsub : ([a, b, c, d].map (fun p => p.id)).Sublist
        ((plannedGroups s f).flatten.map (fun p => p.id)) :=
      (sublist_flatten_of_mem hg).map _
    have hfn : ((plannedGroups s f).flatten.map (fun p => p.id)).Nodup :=
      ((hgcover.map (fun p => p.id)).nodup_iff).mpr htoPlay_nodup
    exact hsub.nodup hfn

lemma updateCounters_cases (playIds sitIds : List Nat) (p : Player) :
    (p.isPresent = false → updateCounters playIds sitIds p = p) ∧
    (p.isPresent = true → p.id ∈ playIds →
      updateCounters playIds sitIds p = { p with gamesPlayed := p.gamesPlayed + 1 }) ∧
    (p.isPresent = true → p.id ∉ playIds → p.id ∈ sitIds →
      updateCounters playIds sitIds p = { p with sits := p.sits + 1 }) ∧
    (p.isPresent = true → p.id ∉ playIds → p.id ∉ sitIds →
      updateCounters playIds sitIds p = p) := by
  refine ⟨?_, ?_, ?_, ?_⟩
  · intro h
    simp [updateCounters, h]
  · intro h1 h2
    simp [updateCounters, h1, h2]
  · intro h1 h2 h3
    simp [updateCounters, h1, h2, h3]
  · intro h1 h2 h3
    simp [updateCounters, h1, h2, h3]

lemma updateCounters_mono (playIds sitIds : List Nat) (p : Player) :
    p.gamesPlayed ≤ (updateCounters playIds sitIds p).gamesPlayed ∧
    p.sits ≤ (updateCounters playIds sitIds p).sits := by
  unfold updateCounters
  split_ifs <;> simp

/-- Ids are injective over the roster when the mapped id list is nodup. -/
lemma id_injOn_of_nodup {s : AppState}
    (hids : (s.players.map (fun p => p.id)).Nodup) :
    ∀ p ∈ s.players, ∀ q ∈ s.players, p.id = q.id → p = q := by
  intro p hp q hq heq
  exact List.inj_on_of_nodup_map hids hp hq heq

/-- C7: on a successful round, every present non-archived player gets
exactly one increment of exactly one counter — gamesPlayed when on a
court, sits when sitting out, neither when in neither set — absent and
archived players are untouched, and gamesPlayed/sits never decrease under
round generation, adding a player, archiving, or toggling the presence or
happy-to-sit flags (only the explicit new-day reset clears them). -/
theorem generateNextRound_counter_updates (s : AppState)
    (f : List Player → List Player)
    (hids : (s.players.map (fun p => p.id)).Nodup)
    (hf : ∀ l : List Player, (f l).Perm l)
    (s' : AppState) (hgen : generateNextRound s f = (s', none)) :
    (∃ r : Round, s'.rounds = s.rounds ++ [r] ∧
      List.Forall₂ (fun p p' : Player =>
        (p.isPresent = false → p' = p) ∧
        (p.isPresent = true → p.isArchived = true → p' = p) ∧
        (p.isPresent = true → p.isArchived = false →
          (¬ (p.id ∈ (r.courts.map (fun c => c.players)).flatten ∧
              p.id ∈ r.sitOut)) ∧
          (p.id ∈ (r.courts.map (fun c => c.players)).flatten →
            p' = { p with gamesPlayed := p.gamesPlayed + 1 }) ∧
          (p.id ∈ r.sitOut → p' = { p with sits := p.sits + 1 }) ∧
          (p.id ∉ (r.courts.map (fun c => c.players)).flatten →
            p.id ∉ r.sitOut → p' = p)) ∧
        p.gamesPlayed ≤ p'.gamesPlayed ∧ p.sits ≤ p'.sits)
        s.players s'.players) ∧
    (∀ (nm g : String) (sk : ℚ),
      List.Forall₂ (fun p p' : Player =>
        p.gamesPlayed ≤ p'.gamesPlayed ∧ p.sits ≤ p'.sits)
        s.players ((addPlayer s nm g sk).players.take s.players.length)) ∧
    (∀ i : Nat, List.Forall₂ (fun p p' : Player =>
        p.gamesPlayed ≤ p'.gamesPlayed ∧ p.sits ≤ p'.sits)
        s.players (archivePlayer s i).players) ∧
    (∀ (i : Nat) (b : Bool), List.Forall₂ (fun p p' : Player =>
        p.gamesPlayed ≤ p'.gamesPlayed ∧ p.sits ≤ p'.sits)
        s.players (setPresent s i b).players) ∧
    (∀ (i : Nat) (b : Bool), List.Forall₂ (fun p p' : Player =>
        p.gamesPlayed ≤ p'.gamesPlayed ∧ p.sits ≤ p'.sits)
        s.players (setHappyToSit s i b).players) := by
  obtain ⟨h1, h2, courts, hbc, _, hs'⟩ := generateNextRound_success s f hgen
  have hactive_nodup := activeOf_ids_nodup s hids
  have h4 : 4 ≤ maxPlayersOf s := by omega
  obtain ⟨hpart, htp_len⟩ := sitOut_toPlay_spec s hactive_nodup h4
  obtain ⟨hgcover, hg4⟩ := plannedGroups_cover s f hf htp_len h4
  obtain ⟨cs, hcs, hmap, _⟩ := buildCourts_spec s.players (plannedGroups s f) 1 hg4
  have hceq : courts = cs := Option.some.inj (hbc.symm.trans hcs)
  subst hceq
  have hflat : (courts.map (fun c => c.players)).flatten.Perm
      ((toPlayOf s).map (fun p => p.id)) := by
    rw [hmap, flatten_map_ids]
    exact hgcover.map _
  have happend : (((sitOutOf s).map (fun p => p.id)) ++
      ((toPlayOf s).map (fun p => p.id))).Perm ((activeOf s).map (fun p => p.id)) := by
    rw [← List.map_append]
    exact hpart.map _
  have hnodup_append : (((sitOutOf s).map (fun p => p.id)) ++
      ((toPlayOf s).map (fun p => p.id))).Nodup :=
    (happend.nodup_iff).mpr hactive_nodup
  have hdisj : ∀ x, x ∈ (sitOutOf s).map (fun p => p.id) →
      x ∈ (toPlayOf s).map (fun p => p.id) → False := by
    intro x hx1 hx2
    exact (List.nodup_append.mp hnodup_append).2.2 hx1 hx2
  refine ⟨⟨_, by rw [hs'], ?_⟩, ?_, ?_, ?_, ?_⟩
  · have hsp : s'.players = s.players.map (updateCounters
        ((toPlayOf s).map (fun p => p.id)) ((sitOutOf s).map (fun p => p.id))) := by
      rw [hs']
    rw [hsp, List.forall₂_map_right_iff]
    apply List.forall₂_same.mpr
    intro p hp
    obtain ⟨hc1, hc2, hc3, hc4⟩ := updateCounters_cases
      ((toPlayOf s).map (fun p => p.id)) ((sitOutOf s).map (fun p => p.id)) p
    obtain ⟨hm1, hm2⟩ := updateCounters_mono
      ((toPlayOf s).map (fun p => p.id)) ((sitOutOf s).map (fun p => p.id)) p
    refine ⟨hc1, ?_, ?_, hm1, hm2⟩
    · intro hpres harch
      have hnotactive : p.id ∉ (activeOf s).map (fun q => q.id) := by
        intro hc
        obtain ⟨q, hq, hqid⟩ := List.mem_map.mp hc
        obtain ⟨hq1, hq2⟩ := List.mem_filter.mp hq
        have hpq : q = p := id_injOn_of_nodup hids q hq1 p hp hqid
        rw [hpq, hpres, harch] at hq2
        simp at hq2
      have hnp : p.id ∉ (toPlayOf s).map (fun q => q.id) := fun hc =>
        hnotactive (happend.subset (List.mem_append_right _ hc))
      have hns : p.id ∉ (sitOutOf s).map (fun q => q.id) := fun hc =>
        hnotactive (happend.subset (List.mem_append_left _ hc))
      exact hc4 hpres hnp hns
    · intro hpres harch
      refine ⟨?_, ?_, ?_, ?_⟩
      · rintro ⟨hx1, hx2⟩
        exact hdisj p.id hx2 (hflat.mem_iff.mp hx1)
      · intro hx
        exact hc2 hpres (hflat.mem_iff.mp hx)
      · intro hx
        exact hc3 hpres (fun hc => hdisj p.id hx hc) hx
      · intro hx1 hx2
        exact hc4 hpres (fun hc => hx1 (hflat.mem_iff.mpr hc)) hx2
  · intro nm g sk
    unfold addPlayer
    split_ifs with hn hs2
    · rw [List.take_length]
      exact List.forall₂_same.mpr (fun a _ => ⟨le_refl _, le_refl _⟩)
    · rw [List.take_length]
      exact List.forall₂_same.mpr (fun a _ => ⟨le_refl _, le_refl _⟩)
    · show List.Forall₂ _ s.players ((s.players ++ _).take s.players.length)
      rw [List.take_left]
      exact List.forall₂_same.mpr (fun a _ => ⟨le_refl _, le_refl _⟩)
  · intro i
    unfold archivePlayer
    rw [List.forall₂_map_right_iff]
    apply List.forall₂_same.mpr
    intro p _
    split_ifs <;> simp
  · intro i b
    unfold setPresent
    rw [List.forall₂_map_right_iff]
    apply List.forall₂_same.mpr
    intro p _
    split_ifs <;> simp
  · intro i b
    unfold setHappyToSit
    rw [List.forall₂_map_right_iff]
    apply List.forall₂_same.mpr
    intro p _
    split_ifs <;> simp

/-- Witness for C6 on the concrete four-player state. -/
theorem generateNextRound_partition_witness :
    ((fourPlayerState.players.map (fun p => p.id)).Nodup) ∧
    generateNextRound fourPlayerState id =
      ((generateNextRound fourPlayerState id).1, none) ∧
    (∃ r : Round, (generateNextRound fourPlayerState id).1.rounds =
        fourPlayerState.rounds ++ [r] ∧
      (r.sitOut ++ (r.courts.map (fun c => c.players)).flatten).Perm
        ((activeOf fourPlayerState).map (fun p => p.id)) ∧
      (r.sitOut ++ (r.courts.map (fun c => c.players)).flatten).Nodup ∧
      ∀ c0 ∈ r.courts,
        [c0.pairs.1.1, c0.pairs.1.2, c0.pairs.2.1, c0.pairs.2.2].Perm c0.players ∧
        c0.players.Nodup) :=
  ⟨of_decide_eq_true (by with_unfolding_all rfl),
   of_decide_eq_true (by with_unfolding_all rfl),
   generateNextRound_partition fourPlayerState id
     (of_decide_eq_true (by with_unfolding_all rfl))
     (fun l => List.Perm.refl l)
     ((generateNextRound fourPlayerState id).1)
     (of_decide_eq_true (by with_unfolding_all rfl))⟩

/-- Witness for C7 on the concrete four-player state. -/
theorem generateNextRound_counter_updates_witness :
    ((fourPlayerState.players.map (fun p => p.id)).Nodup) ∧
    generateNextRound fourPlayerState id =
      ((generateNextRound fourPlayerState id).1, none) ∧
    ((∃ r : Round, (generateNextRound fourPlayerState id).1.rounds =
        fourPlayerState.rounds ++ [r] ∧
      List.Forall₂ (fun p p' : Player =>
        (p.isPresent = false → p' = p) ∧
        (p.isPresent = true → p.isArchived = true → p' = p) ∧
        (p.isPresent = true → p.isArchived = false →
          (¬ (p.id ∈ (r.courts.map (fun c => c.players)).flatten ∧
              p.id ∈ r.sitOut)) ∧
          (p.id ∈ (r.courts.map (fun c => c.players)).flatten →
            p' = { p with gamesPlayed := p.gamesPlayed + 1 }) ∧
          (p.id ∈ r.sitOut → p' = { p with sits := p.sits + 1 }) ∧
          (p.id ∉ (r.courts.map (fun c => c.players)).flatten →
            p.id ∉ r.sitOut → p' = p)) ∧
        p.gamesPlayed ≤ p'.gamesPlayed ∧ p.sits ≤ p'.sits)
        fourPlayerState.players (generateNextRound fourPlayerState id).1.players) ∧
    (∀ (nm g : String) (sk : ℚ),
      List.Forall₂ (fun p p' : Player =>
        p.gamesPlayed ≤ p'.gamesPlayed ∧ p.sits ≤ p'.sits)
        fourPlayerState.players
        ((addPlayer fourPlayerState nm g sk).players.take
          fourPlayerState.players.length)) ∧
    (∀ i : Nat, List.Forall₂ (fun p p' : Player =>
        p.gamesPlayed ≤ p'.gamesPlayed ∧ p.sits ≤ p'.sits)
        fourPlayerState.players (archivePlayer fourPlayerState i).players) ∧
    (∀ (i : Nat) (b : Bool), List.Forall₂ (fun p p' : Player =>
        p.gamesPlayed ≤ p'.gamesPlayed ∧ p.sits ≤ p'.sits)
        fourPlayerState.players (setPresent fourPlayerState i b).players) ∧
    (∀ (i : Nat) (b : Bool), List.Forall₂ (fun p p' : Player =>
        p.gamesPlayed ≤ p'.gamesPlayed ∧ p.sits ≤ p'.sits)
        fourPlayerState.players (setHappyToSit fourPlayerState i b).players)) :=
  ⟨of_decide_eq_true (by with_unfolding_all rfl),
   of_decide_eq_true (by with_unfolding_all rfl),
   generateNextRound_counter_updates fourPlayerState id
     (of_decide_eq_true (by with_unfolding_all rfl))
     (fun l => List.Perm.refl l)
     ((generateNextRound fourPlayerState id).1)
     (of_decide_eq_true (by with_unfolding_all rfl))⟩

/-!  Order-(in)dependence of the court grouper (claim C5).  -/

lemma quartetKey_perm {q q' : List Player} (h : q.Perm q')
    (cfg : Config) (counts : CoCourtCounts) :
    quartetKeyOf (quartetCand cfg counts q) = quartetKeyOf (quartetCand cfg counts q') :=
  congrArg quartetKeyOf (quartetCand_perm h cfg counts)

/-- The tie-freeness condition extended to arbitrary 4-element subperms
of the pool. -/
lemma keyInjOn_subperm {cfg : Config} {counts : CoCourtCounts} {pool : List Player}
    (hinj : keyInjOn cfg counts pool) {q q' : List Player}
    (hq : q.Subperm pool) (hq' : q'.Subperm pool)
    (h4 : q.length = 4) (h4' : q'.length = 4)
    (hkey : quartetKeyOf (quartetCand cfg counts q) =
      quartetKeyOf (quartetCand cfg counts q')) :
    q.Perm q' := by
  obtain ⟨q₀, hq₀p, hq₀s⟩ := hq
  obtain ⟨q₀', hq₀'p, hq₀'s⟩ := hq'
  have hl₀ : q₀.length = 4 := hq₀p.length_eq.trans h4
  have hl₀' : q₀'.length = 4 := hq₀'p.length_eq.trans h4'
  obtain ⟨r₀, hm₀⟩ := combosRest_complete hq₀s
  obtain ⟨r₀', hm₀'⟩ := combosRest_complete hq₀'s
  rw [hl₀] at hm₀
  rw [hl₀'] at hm₀'
  have hk₀ : quartetKeyOf (quartetCand cfg counts q₀) =
      quartetKeyOf (quartetCand cfg counts q₀') := by
    rw [quartetKey_perm hq₀p, quartetKey_perm hq₀'p]
    exact hkey
  have hperm₀ : q₀.Perm q₀' := hinj (q₀, r₀) hm₀ (q₀', r₀') hm₀' hk₀
  exact (hq₀p.symm.trans hperm₀).trans hq₀'p

/-- The greedy court loop produces, up to the order of players within
each quartet, the same courts on any two permutations of its input,
provided no two distinct 4-subsets tie on the full metric tuple. -/
lemma groupLoop_perm_stable (cfg : Config) (counts : CoCourtCounts) :
    ∀ (c : Nat) (l₁ l₂ : List Player), l₁.Perm l₂ →
      (∀ q q' : List Player, q.Subperm l₁ → q'.Subperm l₁ →
        q.length = 4 → q'.length = 4 →
        quartetKeyOf (quartetCand cfg counts q) =
          quartetKeyOf (quartetCand cfg counts q') → q.Perm q') →
      List.Forall₂ (fun g h => g.Perm h)
        (groupLoop cfg counts c l₁) (groupLoop cfg counts c l₂) := by
  intro c
  induction c with
  | zero =>
    intro l₁ l₂ _ _
    exact List.Forall₂.nil
  | succ c ih =>
    intro l₁ l₂ hperm H
    by_cases hlt : l₁.length < 4
    · have hlt₂ : l₂.length < 4 := by rw [← hperm.length_eq]; exact hlt
      rw [groupLoop, groupLoop, if_pos hlt, if_pos hlt₂]
      exact List.Forall₂.nil
    · have hlt₂ : ¬ l₂.length < 4 := by rw [← hperm.length_eq]; exact hlt
      have hne₁ : combosRest 4 l₁ ≠ [] := combosRest_ne_nil 4 l₁ (by omega)
      have hne₂ : combosRest 4 l₂ ≠ [] :=
        combosRest_ne_nil 4 l₂ (by rw [← hperm.length_eq]; omega)
      obtain ⟨m₁, he₁, hm₁, hmin₁⟩ := pickFirstMin_spec
        (fun qr => quartetKeyOf (quartetCand cfg counts qr.1))
        (fun a b =>
          isQuartetBetter (quartetCand cfg counts a.1) (quartetCand cfg counts b.1))
        (fun a b => isQuartetBetter_iff _ _) hne₁
      obtain ⟨m₂, he₂, hm₂, hmin₂⟩ := pickFirstMin_spec
        (fun qr => quartetKeyOf (quartetCand cfg counts qr.1))
        (fun a b =>
          isQuartetBetter (quartetCand cfg counts a.1) (quartetCand cfg counts b.1))
        (fun a b => isQuartetBetter_iff _ _) hne₂
      obtain ⟨hlen₁, hsubq₁, hsubr₁, hperm₁⟩ := combosRest_mem_spec 4 l₁ m₁.1 m₁.2
        (by rw [Prod.mk.eta]; exact hm₁)
      obtain ⟨hlen₂, hsubq₂, hsubr₂, hperm₂⟩ := combosRest_mem_spec 4 l₂ m₂.1 m₂.2
        (by rw [Prod.mk.eta]; exact hm₂)
      -- carry the minimum of one side into the other side's enumeration
      have hcross : ∀ (mq : List Player), mq.Subperm l₁ → mq.length = 4 →
          quartetKeyOf (quartetCand cfg counts m₁.1) ≤
            quartetKeyOf (quartetCand cfg counts mq) := by
        intro mq hsp hl4
        obtain ⟨q₀, hq₀p, hq₀s⟩ := hsp
        have hl₀ : q₀.length = 4 := hq₀p.length_eq.trans hl4
        obtain ⟨r₀, hm₀⟩ := combosRest_complete hq₀s
        rw [hl₀] at hm₀
        have := hmin₁ (q₀, r₀) hm₀
        rw [show quartetKeyOf (quartetCand cfg counts (q₀, r₀).1) =
            quartetKeyOf (quartetCand cfg counts mq) from quartetKey_perm hq₀p cfg counts]
          at this
        exact this
      have hq₂sub : (m₂.1).Subperm l₁ :=
        (hsubq₂.subperm).trans (hperm.symm.subperm)
      have hq₁sub : (m₁.1).Subperm l₁ := hsubq₁.subperm
      have hle₁ : quartetKeyOf (quartetCand cfg counts m₁.1) ≤
          quartetKeyOf (quartetCand cfg counts m₂.1) := hcross m₂.1 hq₂sub hlen₂
      have hle₂ : quartetKeyOf (quartetCand cfg counts m₂.1) ≤
          quartetKeyOf (quartetCand cfg counts m₁.1) := by
        -- symmetric argument inside l₂'s enumeration
        obtain ⟨q₀, hq₀p, hq₀s⟩ := (hq₁sub.trans hperm.subperm)
        have hl₀ : q₀.length = 4 := hq₀p.length_eq.trans hlen₁
        obtain ⟨r₀, hm₀⟩ := combosRest_complete hq₀s
        rw [hl₀] at hm₀
        have := hmin₂ (q₀, r₀) hm₀
        rw [show quartetKeyOf (quartetCand cfg counts (q₀, r₀).1) =
            quartetKeyOf (quartetCand cfg counts m₁.1) from quartetKey_perm hq₀p cfg counts]
          at this
        exact this
      have hkey : quartetKeyOf (quartetCand cfg counts m₁.1) =
          quartetKeyOf (quartetCand cfg counts m₂.1) := le_antisymm hle₁ hle₂
      have hq : (m₁.1).Perm m₂.1 := H m₁.1 m₂.1 hq₁sub hq₂sub hlen₁ hlen₂ hkey
      have hrest : (m₁.2).Perm m₂.2 := by
        have hchain : (m₁.1 ++ m₁.2).Perm (m₁.1 ++ m₂.2) := by
          have h1 : (m₁.1 ++ m₁.2).Perm (m₂.1 ++ m₂.2) :=
            (hperm₁.trans hperm).trans hperm₂.symm
          have h2 : (m₂.1 ++ m₂.2).Perm (m₁.1 ++ m₂.2) := hq.symm.append_right m₂.2
          exact h1.trans h2
        exact (List.perm_append_left_iff m₁.1).mp hchain
      have hgl₁ : groupLoop cfg counts (c + 1) l₁ =
          m₁.1 :: groupLoop cfg counts c m₁.2 := by
        rw [groupLoop, if_neg hlt, show bestQuartet cfg counts l₁ = some m₁ from he₁]
      have hgl₂ : groupLoop cfg counts (c + 1) l₂ =
          m₂.1 :: groupLoop cfg counts c m₂.2 := by
        rw [groupLoop, if_neg hlt₂, show bestQuartet cfg counts l₂ = some m₂ from he₂]
      rw [hgl₁, hgl₂]
      refine List.Forall₂.cons hq ?_
      apply ih m₁.2 m₂.2 hrest
      intro q q' hsp hsp' hl4 hl4' hk
      exact H q q' (hsp.trans hsubr₁.subperm) (hsp'.trans hsubr₁.subperm) hl4 hl4' hk

/-- C5 (amended): when no two 4-subsets of the pool that differ as
multisets share a metric tuple, `groupPlayersIntoCourts` yields, for any
two orderings of the pool and any two permutation-valued shuffles, the
same quartets in the same order, up to the order of players within each
quartet. -/
theorem groupPlayersIntoCourts_perm_stable (cfg : Config) (counts : CoCourtCounts)
    (pool₁ pool₂ : List Player) (f g : List Player → List Player)
    (hperm : pool₁.Perm pool₂)
    (hf : ∀ l : List Player, (f l).Perm l) (hg : ∀ l : List Player, (g l).Perm l)
    (hinj : keyInjOn cfg counts pool₁) :
    List.Forall₂ (fun q q' => q.Perm q')
      (groupPlayersIntoCourts pool₁ cfg counts f)
      (groupPlayersIntoCourts pool₂ cfg counts g) := by
  unfold groupPlayersIntoCourts
  have hlen : pool₂.length = pool₁.length := hperm.length_eq.symm
  rw [hlen]
  by_cases h0 : pool₁.length / 4 = 0
  · rw [if_pos h0, if_pos h0]
    exact List.Forall₂.nil
  · rw [if_neg h0, if_neg h0]
    by_cases hmode : cfg.skillMode = "same-skill"
    · rw [if_pos hmode, if_pos hmode]
      have hp₁ : (sortBy skillDescLE pool₁).Perm pool₁ := sortBy_perm _ _
      have hp₂ : (sortBy skillDescLE pool₂).Perm pool₂ := sortBy_perm _ _
      apply groupLoop_perm_stable
      · exact hp₁.trans (hperm.trans hp₂.symm)
      · intro q q' hsp hsp' hl4 hl4' hk
        exact keyInjOn_subperm hinj (hsp.trans hp₁.subperm)
          (hsp'.trans hp₁.subperm) hl4 hl4' hk
    · rw [if_neg hmode, if_neg hmode]
      have hp₁ : (f pool₁).Perm pool₁ := hf _
      have hp₂ : (g pool₂).Perm pool₂ := hg _
      apply groupLoop_perm_stable
      · exact hp₁.trans (hperm.trans hp₂.symm)
      · intro q q' hsp hsp' hl4 hl4' hk
        exact keyInjOn_subperm hinj (hsp.trans hp₁.subperm)
          (hsp'.trans hp₁.subperm) hl4 hl4' hk

/-- C5 (counterexample): on two orderings of one and the same eight-player
pool, with the identity shuffle, the grouper returns genuinely different
groupings — one ordering puts ids {1, 2, 3, 8} on a court, the other does
not place that quartet on any court — so the seed ordering is not inert. -/
theorem groupPlayersIntoCourts_order_dependent :
    poolOrderB.Perm poolOrderA ∧
    (∃ gq ∈ groupPlayersIntoCourts poolOrderA mediumRandomCfg crossCounts id,
      (gq.map (fun p => p.id)).Perm [1, 2, 3, 8]) ∧
    (∀ gq ∈ groupPlayersIntoCourts poolOrderB mediumRandomCfg crossCounts id,
      ¬ (gq.map (fun p => p.id)).Perm [1, 2, 3, 8]) :=
  of_decide_eq_true (by with_unfolding_all rfl)

/-- Witness for the amended C5 on a concrete four-player pool. -/
theorem groupPlayersIntoCourts_perm_stable_witness :
    witnessPoolA.Perm witnessPoolB ∧
    keyInjOn mediumRandomCfg crossCounts witnessPoolA ∧
    List.Forall₂ (fun q q' => q.Perm q')
      (groupPlayersIntoCourts witnessPoolA mediumRandomCfg crossCounts id)
      (groupPlayersIntoCourts witnessPoolB mediumRandomCfg crossCounts id) :=
  ⟨of_decide_eq_true (by with_unfolding_all rfl),
   of_decide_eq_true (by with_unfolding_all rfl),
   groupPlayersIntoCourts_perm_stable mediumRandomCfg crossCounts
     witnessPoolA witnessPoolB id id
     (of_decide_eq_true (by with_unfolding_all rfl))
     (fun l => List.Perm.refl l) (fun l => List.Perm.refl l)
     (of_decide_eq_true (by with_unfolding_all rfl))⟩

end Tennis
